import Mathlib

/-!
Verification development for the release-notes generator
(`release_notes_generator.py`).  The script shells out to git and to the
JIRA REST API; those external services are modelled as oracle functions
(`mb` for `git merge-base`, `gitLog` for `git log`, `statOf` for
`git show --stat`, `svc` for the JIRA HTTP endpoint).  All Python string
manipulation is modelled over `List Char`, and the script's regular
expressions are modelled by dedicated leftmost/greedy matchers.
-/

namespace RNG

/-! ### Python string primitives over `List Char` -/

/-- Characters stripped by Python `str.strip()` with no argument. -/
def isPySpace (c : Char) : Bool :=
  c == ' ' || c == '\t' || c == '\n' || c == '\r' || c == '\x0b' || c == '\x0c'

/-- Python `str.lstrip()`. -/
def pyLStrip (l : List Char) : List Char := l.dropWhile isPySpace

/-- Python `str.rstrip()`. -/
def pyRStrip (l : List Char) : List Char := (l.reverse.dropWhile isPySpace).reverse

/-- Python `str.strip()`. -/
def pyStrip (l : List Char) : List Char := pyRStrip (pyLStrip l)

/-- Python `str.strip(ch)` for a single strip character. -/
def pyStripChar (c : Char) (l : List Char) : List Char :=
  ((l.dropWhile (· == c)).reverse.dropWhile (· == c)).reverse

/-- Python `str.split(sep)` for a one-character separator (keeps empty parts). -/
def splitOnChar (c : Char) : List Char → List (List Char)
  | [] => [[]]
  | x :: xs =>
    if x = c then [] :: splitOnChar c xs
    else
      match splitOnChar c xs with
      | [] => [[x]]
      | h :: t => (x :: h) :: t

/-- Split at the first occurrence of a character; `none` when absent.
Two applications model Python `str.split(sep, 2)`. -/
def splitOnceChar (c : Char) : List Char → Option (List Char × List Char)
  | [] => none
  | x :: xs =>
    if x = c then some ([], xs)
    else (splitOnceChar c xs).map (fun p => (x :: p.1, p.2))

/-- Python `sep.join(parts)`. -/
def pyJoin (sep : List Char) : List (List Char) → List Char
  | [] => []
  | [l] => l
  | l :: ls => l ++ sep ++ pyJoin sep ls

/-! ### Mini regex matchers for the script's patterns -/

/-- Greedy match of `(?:[0-9]+\.)*[0-9]+` (the tail of `VERSION_REGEX` after
the first mandatory `digits '.'` group), with the backtracking the Python
engine performs: when no further `digits '.'` group fits, the last digit run
becomes the final `[0-9]+`.  Fuel-based so the definition stays structural;
each step consumes at least two characters, so `cs.length` fuel suffices. -/
def matchVerTailAux : Nat → List Char → Option (List Char × List Char)
  | 0, _ => none
  | fuel + 1, cs =>
    if cs.takeWhile Char.isDigit = [] then none
    else
      match cs.dropWhile Char.isDigit with
      | '.' :: r2 =>
        match matchVerTailAux fuel r2 with
        | some (m, rr) => some (cs.takeWhile Char.isDigit ++ '.' :: m, rr)
        | none => some (cs.takeWhile Char.isDigit, cs.dropWhile Char.isDigit)
      | _ => some (cs.takeWhile Char.isDigit, cs.dropWhile Char.isDigit)

/-- Greedy match of `(?:[0-9]+\.)+[0-9]+` (`VERSION_REGEX` without the `|$`
branch) at the start of `cs`; returns the matched text and the rest. -/
def matchVersionAt (cs : List Char) : Option (List Char × List Char) :=
  if cs.takeWhile Char.isDigit = [] then none
  else
    match cs.dropWhile Char.isDigit with
    | '.' :: r2 =>
      (matchVerTailAux r2.length r2).map
        (fun p => (cs.takeWhile Char.isDigit ++ '.' :: p.1, p.2))
    | _ => none

/-- Leftmost match of `VERSION_REGEX = '(?:[0-9]+\.)+[0-9]+|$'`: scan every
start position; at the end position only `$` matches, giving `[]`.  This is
`re.findall(VERSION_REGEX, s)[0]`. -/
def findVersionFrom : List Char → List Char
  | [] => []
  | c :: rest =>
    match matchVersionAt (c :: rest) with
    | some (m, _) => m
    | none => findVersionFrom rest

/-- `re.findall(VERSION_REGEX, s)[0]` as used on the operator's version input. -/
def findVersion (s : String) : String := String.mk (findVersionFrom s.data)

/-- The version-format validation from `command_prompt_step1`
(lines 381-385 and 422-424): the input passes when it equals the first
regex match, otherwise the script raises `ValueError`. -/
def checkVersion (v : String) : Bool := v == findVersion v

/-- Component-name characters of `RELEASE_BRANCH_REGEX`: the class `[0-1a-z-]`. -/
def isCompChar (c : Char) : Bool :=
  c == '0' || c == '1' || ('a' ≤ c && c ≤ 'z') || c == '-'

/-- Greedy match of `RELEASE_BRANCH_REGEX = 'release/[0-1a-z-]+/(?:[0-9]+\.)+[0-9]+'`
at the start of `cs`. -/
def matchReleaseAt (cs : List Char) : Option (List Char × List Char) :=
  if "release/".data.isPrefixOf cs then
    let rest := cs.drop 8
    let comp := rest.takeWhile isCompChar
    let r2 := rest.dropWhile isCompChar
    if comp = [] then none
    else
      match r2 with
      | '/' :: r3 =>
        match matchVersionAt r3 with
        | some (v, r4) => some ("release/".data ++ comp ++ '/' :: v, r4)
        | none => none
      | _ => none
  else none

/-- `re.findall(RELEASE_BRANCH_REGEX, text)`: left-to-right, non-overlapping.
Fuel-based; every step consumes at least one character. -/
def findAllReleasesAux : Nat → List Char → List String
  | 0, _ => []
  | _ + 1, [] => []
  | fuel + 1, c :: rest =>
    match matchReleaseAt (c :: rest) with
    | some (m, r) => String.mk m :: findAllReleasesAux fuel r
    | none => findAllReleasesAux fuel rest

def re_findall_release (s : String) : List String :=
  findAllReleasesAux (s.data.length + 1) s.data

/-- `get_release_tag_names_by_date` (lines 99-108), with the output of
`git tag --sort=-creatordate` passed in as `gitTagOut`: extract every
substring matching `RELEASE_BRANCH_REGEX`, reverse into ascending date
order, and raise `ValueError` only when nothing matched. -/
def get_release_tag_names_by_date (gitTagOut : String) : Except String (List String) :=
  if (re_findall_release gitTagOut).reverse = [] then
    .error "No Tags matching pattern release/[0-1a-z-]+/(?:[0-9]+\\.)+[0-9]+ found."
  else .ok ((re_findall_release gitTagOut).reverse)

/-- Match of `[A-Z]{2}-[0-9]+` (the non-`$` branch of `FT_REGEX`) at the
start of `cs`, greedy in the digit run. -/
def matchFTAt : List Char → Option (List Char × List Char)
  | a :: b :: c :: rest =>
    if a.isUpper && b.isUpper && c = '-' then
      if rest.takeWhile Char.isDigit = [] then none
      else some (a :: b :: c :: rest.takeWhile Char.isDigit,
                 rest.dropWhile Char.isDigit)
    else none
  | _ => none

/-- Leftmost match of `FT_REGEX = '[A-Z]{2}-[0-9]+|$'`, i.e.
`re.findall(FT_REGEX, line)[0]`: the first issue id, or `[]` via `$`. -/
def ftFirst : List Char → List Char
  | [] => []
  | c :: rest =>
    match matchFTAt (c :: rest) with
    | some (m, _) => m
    | none => ftFirst rest

/-- `re.findall(FT_REGEX, line)` in full (fuel-based, non-overlapping);
the trailing `$` branch contributes a final empty match. -/
def findallFTAux : Nat → List Char → List String
  | 0, _ => []
  | _ + 1, [] => [""]
  | fuel + 1, c :: rest =>
    match matchFTAt (c :: rest) with
    | some (m, r) => String.mk m :: findallFTAux fuel r
    | none => findallFTAux fuel rest

def re_findall_ft (s : String) : List String :=
  findallFTAux (s.data.length + 1) s.data

/-- Whether a substring matching `[A-Z]{2}-[0-9]+` starts at this position
(written from the pattern itself: two uppercase letters, a dash, a digit). -/
def specFTStart : List Char → Bool
  | a :: b :: c :: d :: _ => a.isUpper && b.isUpper && c == '-' && d.isDigit
  | _ => false

/-- The line contains some substring matching `[A-Z]{2}-[0-9]+`. -/
def specHasFT (cs : List Char) : Bool := cs.tails.any specFTStart

/-- Leftmost match of `GITHUB_PULL_ID_REGEX = ' #[0-9]+ |$'`:
`re.findall(GITHUB_PULL_ID_REGEX, line)[0]`.  When the pattern fails at a
position, the scan advances one character (the failed position started with
a space, so the next position cannot start a match either and is skipped
directly). -/
def pullFirst : List Char → List Char
  | [] => []
  | c :: rest =>
    if c = ' ' then
      match rest with
      | '#' :: rest2 =>
        if rest2.takeWhile Char.isDigit = [] then pullFirst rest
        else
          match rest2.dropWhile Char.isDigit with
          | ' ' :: _ => ' ' :: '#' :: rest2.takeWhile Char.isDigit ++ [' ']
          | _ => pullFirst rest
      | _ => pullFirst rest
    else pullFirst rest

/-! ### Tag records and the ancestry resolver (`fetch_github_release`) -/

/-- One entry of a component's tag list before ancestor resolution
(the dicts built in lines 130-140; `tag_date` is irrelevant to the claims
and omitted from the model). -/
structure TagRec where
  tag_name : String
  tag_commit_id : String
deriving DecidableEq, Repr

/-- A tag after the resolution loop: the optional `pre_tag_name` /
`pre_tag_commit_id` keys are `none` when the scan never assigned them. -/
structure RTag extends TagRec where
  pre : Option (String × String)
deriving DecidableEq, Repr

/-- The inverted index `commit_id_tag_name` of lines 161-164.  It is built
over the WHOLE chain, and a later assignment for the same commit overwrites
an earlier one, so lookup returns the last tag carrying that commit. -/
def indexLookup (tags : List TagRec) (c : String) : Option String :=
  (tags.reverse.find? (fun t => t.tag_commit_id == c)).map (fun t => t.tag_name)

/-- The inner scan of lines 166-176 for one tag: `scanCount mb tags ci k`
tries candidate indices `k-1, k-2, …, 0`; for each candidate `j` it asks the
VCS oracle `mb` for `git merge-base ci commit[j]` and stops at the first
answer present in the inverted index. -/
def scanCount (mb : String → String → String) (tags : List TagRec) (ci : String) :
    Nat → Option (String × String)
  | 0 => none
  | j + 1 =>
    match tags.get? j with
    | none => scanCount mb tags ci j
    | some tj =>
      match indexLookup tags (mb ci tj.tag_commit_id) with
      | some nm => some (nm, mb ci tj.tag_commit_id)
      | none => scanCount mb tags ci j

/-- Resolution result for the tag at index `i` of a component chain. -/
def resolvePred (mb : String → String → String) (tags : List TagRec) (i : Nat) :
    Option (String × String) :=
  match tags.get? i with
  | none => none
  | some ti => scanCount mb tags ti.tag_commit_id i

/-- The whole per-component resolution loop (lines 160-178): every tag keeps
its fields and gains the optional predecessor link; index 0 (the root) is
never scanned. -/
def resolveChain (mb : String → String → String) (tags : List TagRec) : List RTag :=
  tags.mapIdx (fun i t => ⟨t, resolvePred mb tags i⟩)

/-- Modelled from the spec: "For tag at index `i`, scan candidate
predecessors at indices `i-1, i-2, …, 0` …  For each candidate `j`, compute
`LCA(commit[i], commit[j])` …  If the LCA commit equals a commit already
present in the index, tag `i`'s predecessor is resolved to that indexed tag
and the scan stops."  Stated as the first hit of that scan order. -/
def specResolve (mb : String → String → String) (tags : List TagRec) (i : Nat) :
    Option (String × String) :=
  match tags.get? i with
  | none => none
  | some ti =>
    (List.range i).reverse.findSome? (fun j =>
      match tags.get? j with
      | none => none
      | some tj =>
        match indexLookup tags (mb ti.tag_commit_id tj.tag_commit_id) with
        | some nm => some (nm, mb ti.tag_commit_id tj.tag_commit_id)
        | none => none)

/-! ### Commit scope filter (`fetch_github_tickets`, lines 181-216) -/

/-- URL constants of lines 29-47 that feed the generated rows and text. -/
def GITHUB_COMMIT_URL : String := "https://github.com/Formlabs/factory-software/commit/"

def GITHUB_PULL_URL : String := "https://github.com/Formlabs/factory-software/pull/"

def GITHUB_CMP_URL : String := "https://github.com/Formlabs/factory-software/compare/"

def JIRA_TICKET_URL : String := "https://formlabs.atlassian.net/browse/"

/-- One GitHub-side ticket dict appended in line 215. -/
structure GTicket where
  date : String
  commit_id : String
  title : String
  ft : String
  pull_id : String
deriving DecidableEq, Repr

/-- Line 191: split the `git log` output on newlines and keep the lines
that are nonempty after stripping. -/
def fetchLines (out : String) : List (List Char) :=
  (splitOnChar '\n' out.data).filter (fun l => !(pyStrip l).isEmpty)

/-- Line 195: `line.strip('"').strip().split(' ', 2)`, yielding
`(date, commit_id, title)`; `none` models the `ValueError` Python raises
when the line has fewer than two spaces to split on. -/
def parse3 (l : List Char) : Option (List Char × List Char × List Char) :=
  match splitOnceChar ' ' (pyStrip (pyStripChar '"' l)) with
  | none => none
  | some (d, r) =>
    match splitOnceChar ' ' r with
    | none => none
    | some (h, t) => some (d, h, t)

/-- The reversed walk over the `git show --stat` lines (lines 205-211):
stop with `false` at the first blank line, stop with `true` at the first
line whose stripped text has `dir` as a prefix.  The argument is the
already reversed line list. -/
def scanStat (dir : List Char) : List (List Char) → Bool
  | [] => false
  | f :: rest =>
    if pyStrip f = [] then false
    else if dir.isPrefixOf (pyStrip f) then true
    else scanStat dir rest

/-- The stat lines of one commit: `out.strip('\n').split('\n')` on the
`git show --stat` output (lines 201-205). -/
def statLinesOf (statOf : String → String) (commit_id : List Char) : List (List Char) :=
  splitOnChar '\n' (pyStripChar '\n' (statOf (String.mk commit_id)).data)

/-- The per-line body of the loop in lines 192-215, threading the Python
exceptions through `Except`. -/
def fetchLoop (statOf : String → String) (dir : List Char) :
    List (List Char) → Except String (List GTicket)
  | [] => .ok []
  | line :: rest =>
    let ft := ftFirst line
    let pull_id := pyStripChar '#' (pyStrip (pullFirst line))
    match parse3 line with
    | none => .error "ValueError: not enough values to unpack"
    | some (date, commit_id, title) =>
      let file_changed := scanStat dir (statLinesOf statOf commit_id).reverse
      match fetchLoop statOf dir rest with
      | .error e => .error e
      | .ok ts =>
        .ok (if file_changed then
              ⟨String.mk date, String.mk commit_id, String.mk title,
               String.mk ft, String.mk pull_id⟩ :: ts
             else ts)

/-- `fetch_github_tickets(tag)`: `gitLog pre tag` is the oracle for
`git log --format="%ad %H %s" --date=short pre...tag` (note the THREE-dot
symmetric-difference range of line 186), `statOf` the oracle for
`git show --stat`.  Accessing the missing `pre_tag_commit_id` key of an
unresolved tag raises `KeyError`; `tag_name.strip('/').split('/')[1]`
raises `IndexError` when absent.  `dir_path` is
`os.path.join('components', component)` — no trailing separator. -/
def fetch_github_tickets (gitLog : String → String → String)
    (statOf : String → String) (t : RTag) : Except String (List GTicket) :=
  match t.pre with
  | none => .error "KeyError: pre_tag_commit_id"
  | some (_, pre_cid) =>
    match (splitOnChar '/' (pyStripChar '/' t.tag_name.data)).get? 1 with
    | none => .error "IndexError: list index out of range"
    | some comp =>
      fetchLoop statOf ("components/".data ++ comp)
        (fetchLines (gitLog pre_cid t.tag_commit_id))

/-- Modelled from the spec: a changed path "falls under the component's
directory subtree" when it extends `components/<component>/` (separator
included). -/
def pathUnderComponent (component path : String) : Bool :=
  ("components/" ++ component ++ "/").data.isPrefixOf path.data

/-- Commit-graph abstraction for the `git log` range semantics: `reach a c`
says `c` is reachable from (an ancestor of, or equal to) `a`.  `git log
A...B` lists the commits reachable from exactly one of the two endpoints,
in the log order fixed by `commits`. -/
def logThreeDot (commits : List String) (reach : String → String → Bool)
    (a b : String) : List String :=
  commits.filter (fun c => reach a c != reach b c)

/-- Modelled from the spec: "the ordered commit log strictly between
`predecessor_commit` (exclusive) and `tag_commit` (inclusive)", i.e. the
commits reachable from the tag commit `b` but not from the predecessor
commit `a`. -/
def logTwoDotSpec (commits : List String) (reach : String → String → Bool)
    (a b : String) : List String :=
  commits.filter (fun c => reach b c && !(reach a c))

/-- One line of `git log --format="%ad %H %s"` output for commit `c`
(the literal quotes of the format string included), newline-terminated. -/
def fmtLogLine (date subj : String → String) (c : String) : List Char :=
  '"' :: (date c).data ++ ' ' :: c.data ++ ' ' :: (subj c).data ++ '"' :: ['\n']

/-- The full `git log pre...tag` output under the graph abstraction. -/
def gitLogOutput (commits : List String) (reach : String → String → Bool)
    (date subj : String → String) (a b : String) : String :=
  String.mk ((logThreeDot commits reach a b).map (fmtLogLine date subj)).flatten

/-! ### JIRA lookups (`fetch_jira_tickets`, lines 219-261) -/

/-- Payload of a successful JIRA issue response, as read in lines 245-255;
`assignee` is optional (line 248 guards `data['fields']['assignee']`). -/
structure JiraData where
  summary : String
  description : String
  assignee : Option String
  reporter_name : String
  priority_name : String
  priority_icon_url : String
  status_name : String
  status_icon_url : String
deriving DecidableEq, Repr

/-- One HTTP response of the ticket service. -/
inductive JResp where
  | ok (d : JiraData)
  | err
deriving DecidableEq

/-- The enrichment dict appended per issue id. -/
structure JiraTicket where
  summary : String
  description : String
  assignee_name : String
  reporter_name : String
  priority_name : String
  priority_icon_url : String
  status_name : String
  status_icon_url : String
  jira_url : String
deriving DecidableEq, Repr

/-- The empty enrichment of lines 226-236 for commits without an issue id. -/
def emptyJiraTicket : JiraTicket := ⟨"", "", "", "", "", "", "", "", ""⟩

def mkJiraTicket (ft : String) (d : JiraData) : JiraTicket :=
  ⟨d.summary, d.description, (d.assignee).getD "", d.reporter_name,
   d.priority_name, d.priority_icon_url, d.status_name, d.status_icon_url,
   JIRA_TICKET_URL ++ ft⟩

/-- The retry loop of lines 240-258: `svc k` is the response to attempt `k`
(zero-based), `n` the remaining attempts, `sleepSec` the current backoff.
Returns the data on success together with the number of requests made and
the list of sleeps performed (the script sleeps after every failed attempt,
the final one included, then doubles the wait). -/
def jiraTry (svc : Nat → JResp) : Nat → Nat → Nat → Option JiraData × Nat × List Nat
  | k, 0, _ => (none, k, [])
  | k, n + 1, sleepSec =>
    match svc k with
    | .ok d => (some d, k + 1, [])
    | .err =>
      match jiraTry svc (k + 1) n (sleepSec * 2) with
      | (r, total, sleeps) => (r, total, sleepSec :: sleeps)

/-- One issue lookup: at most 3 attempts, initial backoff 2 seconds. -/
def fetchJiraOne (svc : Nat → JResp) : Option JiraData × Nat × List Nat :=
  jiraTry svc 0 3 2

/-- `fetch_jira_tickets(fts)`: empty ids get the empty enrichment; for the
rest, exhausting the retries raises `requests.HTTPError` (line 260), which
aborts the whole run. -/
def fetch_jira_tickets (svc : String → Nat → JResp) :
    List String → Except String (List JiraTicket)
  | [] => .ok []
  | ft :: rest =>
    if ft = "" then
      match fetch_jira_tickets svc rest with
      | .error e => .error e
      | .ok ts => .ok (emptyJiraTicket :: ts)
    else
      match (fetchJiraOne (svc ft)).1 with
      | some d =>
        match fetch_jira_tickets svc rest with
        | .error e => .error e
        | .ok ts => .ok (mkJiraTicket ft d :: ts)
      | none =>
        .error ("connection to JIRA with ticket " ++ ft ++ " failed after 3 times")

/-! ### Row assembly (`command_prompt_step2`, lines 519-538) -/

/-- The merged dict `{**github_tickets[i], **jira_tickets[i]}` of line 504. -/
structure MTicket where
  date : String
  commit_id : String
  title : String
  ft : String
  pull_id : String
  summary : String
  description : String
  assignee_name : String
  reporter_name : String
  priority_name : String
  priority_icon_url : String
  status_name : String
  status_icon_url : String
  jira_url : String
deriving DecidableEq, Repr

def mergeTicket (g : GTicket) (j : JiraTicket) : MTicket :=
  ⟨g.date, g.commit_id, g.title, g.ft, g.pull_id, j.summary, j.description,
   j.assignee_name, j.reporter_name, j.priority_name, j.priority_icon_url,
   j.status_name, j.status_icon_url, j.jira_url⟩

/-- The Github cell: a pull-request link when a pull id was found, else a
short-hash commit link (lines 530-536). -/
def githubCell (t : MTicket) : String :=
  "[" ++ String.mk (t.commit_id.data.take 7) ++ "](" ++ GITHUB_COMMIT_URL ++ t.commit_id ++ ")"

/-- The six-cell row built for one ticket in lines 522-538, in index order
`[0..5]` (`row[2]`/`row[4]` depend on whether an issue id is present). -/
def rowOf (t : MTicket) : List String :=
  [t.priority_name,
   t.ft,
   if t.ft ≠ "" then t.summary else t.title,
   t.assignee_name,
   if t.ft ≠ "" then
     (if t.pull_id ≠ "" then
        "[#" ++ t.pull_id ++ "](" ++ GITHUB_PULL_URL ++ t.pull_id ++ ")"
      else githubCell t)
   else githubCell t,
   "[" ++ t.ft ++ "](" ++ JIRA_TICKET_URL ++ t.ft ++ ")"]

/-- The accumulation `rows = []; for ticket in tickets: … rows.append(row)`. -/
def buildRows (tickets : List MTicket) : List (List String) :=
  tickets.foldl (fun rows t => rows ++ [rowOf t]) []

/-- The fixed header list of line 520. -/
def tableHeaders : List String :=
  ["Priority", "Ticket", "Summary", "Assignee", "Github", "JIRA"]

/-- The row-producing fragment of `command_prompt_step2` for one release
(lines 499-538, without the interactive dummy ticket): fetch the JIRA
enrichments for the GitHub tickets' issue ids, merge pairwise, build rows.
A JIRA failure aborts before any row (and hence any document) exists. -/
def step2Rows (svc : String → Nat → JResp) (gts : List GTicket) :
    Except String (List (List String)) :=
  match fetch_jira_tickets svc (gts.map (fun g => g.ft)) with
  | .error e => .error e
  | .ok jts => .ok (buildRows ((List.zip gts jts).map (fun p => mergeTicket p.1 p.2)))

/-! ### Markdown generation and summary-block extraction
(`generate_markdown_text`, lines 292-344, and `grep_old_markdown_summary`,
lines 264-289) -/

/-- The start marker prefix checked in line 282. -/
def markS : List Char := "<!--Summary Block;".data

/-- The end marker prefix checked in line 277. -/
def markE : List Char := "<!--Summary Block End;".data

/-- `readlines()`: split a file's text into lines, each keeping its
terminating newline; a last unterminated line is kept without one. -/
def splitLinesAux (acc : List Char) : List Char → List (List Char)
  | [] => if acc = [] then [] else [acc.reverse]
  | c :: cs =>
    if c = '\n' then (acc.reverse ++ ['\n']) :: splitLinesAux [] cs
    else splitLinesAux (c :: acc) cs

def splitLines (cs : List Char) : List (List Char) := splitLinesAux [] cs

/-- Dict lookup for the `tag_summary` accumulator. -/
def lookupEntry : List (List Char × List Char) → List Char → Option (List Char)
  | [], _ => none
  | (k, v) :: rest, key => if k = key then some v else lookupEntry rest key

/-- Dict assignment `tag_summary[k] = v` (replace or append). -/
def updateEntry : List (List Char × List Char) → List Char → List Char →
    List (List Char × List Char)
  | [], key, v => [(key, v)]
  | (k, w) :: rest, key, v =>
    if k = key then (key, v) :: rest else (k, w) :: updateEntry rest key v

/-- `tag_summary[k] += line`; the flow of the loop guarantees the key was
initialised by the start marker before any append. -/
def appendEntry (m : List (List Char × List Char)) (key line : List Char) :
    List (List Char × List Char) :=
  updateEntry m key (((lookupEntry m key).getD []) ++ line)

/-- One iteration of the line loop in lines 275-284, in source order:
the end marker clears the active tag, an active tag accumulates the line,
the start marker sets the active tag (parsed from the line by
`line.strip().split(';')[1].strip()`) and resets its summary. -/
def grepStep (st : Option (List Char) × List (List Char × List Char))
    (line : List Char) : Option (List Char) × List (List Char × List Char) :=
  let tag1 := if markE.isPrefixOf line then none else st.1
  let acc2 :=
    match tag1 with
    | some t => appendEntry st.2 t line
    | none => st.2
  if markS.isPrefixOf line then
    let t := pyStrip ((splitOnChar ';' (pyStrip line)).getD 1 [])
    (some t, updateEntry acc2 t [])
  else (tag1, acc2)

/-- `grep_old_markdown_summary` for one release-notes file, given its
`readlines()` output: run the line loop, then left-strip every collected
summary (lines 287-288).  The per-component file loop of lines 269-271
feeds the same dict with each file's lines in turn. -/
def grep_old_markdown_summary (lines : List (List Char)) :
    List (List Char × List Char) :=
  (lines.foldl grepStep (none, [])).2.map (fun p => (p.1, pyLStrip p.2))

/-- A separator cell `'-' * (len(header) + 2)` of line 330. -/
def mdSepCell (h : String) : List Char := List.replicate (h.length + 2) '-'

/-- One table row line `'|' + '|'.join(row) + '|' + '\n'` of lines 332-334. -/
def mdRowLine (row : List String) : List Char :=
  '|' :: pyJoin "|".data (row.map String.data) ++ "|\n".data

/-- The text built by `generate_markdown_text` (lines 320-344), as raw
character data.  The chunks mirror the source's `text += …` statements
(the format strings are split at their newline boundaries; the
concatenated value is identical). -/
def gen_text_data (release_date : String) (headers : List String)
    (old_summary : List Char) (rows : List (List String))
    (tag_name pre_name pre_cid t_cid : String) : List Char :=
  "\n".data
  ++ "## `".data ++ (splitOnChar '/' tag_name.data).getLastD [] ++ "` `".data
    ++ release_date.data ++ "`\n".data ++ "\n".data
  ++ markS ++ " ".data ++ tag_name.data
    ++ "; Don't modify/delete this comment.-->\n".data ++ "\n".data
  ++ old_summary
  ++ markE ++ " ".data ++ tag_name.data
    ++ "; Don't modify/delete this comment.-->\n".data ++ "\n".data
  ++ "| ".data ++ pyJoin " | ".data (headers.map String.data) ++ " |\n".data
  ++ "|".data ++ pyJoin "|".data (headers.map mdSepCell) ++ "|\n".data
  ++ (rows.map mdRowLine).flatten
  ++ "\n".data
  ++ "Previous Release: `".data ++ pre_name.data ++ "`\n".data ++ "\n".data
  ++ "[Compare changes on Github](".data ++ GITHUB_CMP_URL.data ++ pre_cid.data
    ++ "...".data ++ t_cid.data ++ ")\n".data ++ "\n".data
  ++ "\n".data ++ "```\n".data
  ++ ">> git diff ".data ++ pre_cid.data ++ " ".data ++ t_cid.data
    ++ " components/".data ++ (splitOnChar '/' tag_name.data).getD 1 []
    ++ "/\n".data
  ++ "```\n".data

/-- `generate_markdown_text(release_date, headers, old_summary, rows, tag)`:
raises `ValueError` when some row's length differs from the headers'
(lines 316-318), `KeyError` when the tag has no predecessor link
(line 337 reads `tag['pre_tag_name']`). -/
def generate_markdown_text (release_date : String) (headers : List String)
    (old_summary : String) (rows : List (List String)) (t : RTag) :
    Except String String :=
  if rows.any (fun row => headers.length ≠ row.length) then
    .error "ValueError: In Markdown table, we expect the length of row is equal to the headers."
  else
    match t.pre with
    | none => .error "KeyError: pre_tag_name"
    | some (pre_name, pre_cid) =>
      .ok (String.mk (gen_text_data release_date headers old_summary.data rows
            t.tag_name pre_name pre_cid t.tag_commit_id))

/-- The line decomposition of `gen_text_data`: the same text as a list of
newline-terminated lines (the summary is supplied as its own line list). -/
def gen_lines (release_date : String) (headers : List String)
    (sLines : List (List Char)) (rows : List (List String))
    (tag_name pre_name pre_cid t_cid : String) : List (List Char) :=
  ["\n".data,
   "## `".data ++ (splitOnChar '/' tag_name.data).getLastD [] ++ "` `".data
     ++ release_date.data ++ "`\n".data,
   "\n".data,
   markS ++ " ".data ++ tag_name.data
     ++ "; Don't modify/delete this comment.-->\n".data,
   "\n".data]
  ++ sLines
  ++ [markE ++ " ".data ++ tag_name.data
       ++ "; Don't modify/delete this comment.-->\n".data,
      "\n".data,
      "| ".data ++ pyJoin " | ".data (headers.map String.data) ++ " |\n".data,
      "|".data ++ pyJoin "|".data (headers.map mdSepCell) ++ "|\n".data]
  ++ rows.map mdRowLine
  ++ ["\n".data,
      "Previous Release: `".data ++ pre_name.data ++ "`\n".data,
      "\n".data,
      "[Compare changes on Github](".data ++ GITHUB_CMP_URL.data ++ pre_cid.data
        ++ "...".data ++ t_cid.data ++ ")\n".data,
      "\n".data,
      "\n".data,
      "```\n".data,
      ">> git diff ".data ++ pre_cid.data ++ " ".data ++ t_cid.data
        ++ " components/".data ++ (splitOnChar '/' tag_name.data).getD 1 []
        ++ "/\n".data,
      "```\n".data]

/-- A well-formed file line: newline-terminated, no interior newline. -/
def WfLine (ln : List Char) : Prop := ∃ mid, ln = mid ++ ['\n'] ∧ '\n' ∉ mid

/-- The candidate ticket a log line parses to, before the changed-files
filter (`ft`, `pull_id`, `date`, `commit_id`, `title` of lines 192-195). -/
def candTicket (l d h t : List Char) : GTicket :=
  ⟨String.mk d, String.mk h, String.mk t, String.mk (ftFirst l),
   String.mk (pyStripChar '#' (pyStrip (pullFirst l)))⟩

/-- The scope filter as a filter over parsed candidates: keep a line's
ticket exactly when the reversed-stat scan accepts its commit; candidate
order (hence commit order) is preserved. -/
def specScopeFilter (statOf : String → String) (dir : List Char)
    (lines : List (List Char)) : List GTicket :=
  lines.filterMap (fun l =>
    match parse3 l with
    | none => none
    | some (d, h, t) =>
      if scanStat dir (statLinesOf statOf h).reverse then some (candTicket l d h t)
      else none)

/-- The quote-delimited core of one formatted log line (everything before
the terminating newline). -/
def fmtLogCore (date subj : String → String) (c : String) : List Char :=
  '"' :: (date c).data ++ ' ' :: c.data ++ ' ' :: (subj c).data ++ ['"']

/-- Well-formedness of the per-commit oracle data that `git log` would
print: dates and commit ids without whitespace or quotes, nonempty dates,
subjects without quotes or newlines that do not right-strip to nothing. -/
def LogWf (date subj : String → String) (c : String) : Prop :=
  (date c).data ≠ [] ∧
  (∀ ch ∈ (date c).data, isPySpace ch = false ∧ ch ≠ '"') ∧
  (∀ ch ∈ c.data, isPySpace ch = false ∧ ch ≠ '"') ∧
  (∀ ch ∈ (subj c).data, ch ≠ '"' ∧ ch ≠ '\n') ∧
  pyRStrip (subj c).data ≠ []

instance (date subj : String → String) (c : String) :
    Decidable (LogWf date subj c) := by
  unfold LogWf
  infer_instance

/-! ### Concrete instances used by counterexamples and witnesses -/

/-- The fork topology of the spec scenario: `c1` is the parent of both `c2`
and `c3`, the chain lists the root and the three releases in creation
order. -/
def chainFork : List TagRec :=
  [⟨"", "c0"⟩, ⟨"release/comp/1.0.0", "c1"⟩, ⟨"release/comp/1.0.1", "c2"⟩,
   ⟨"release/comp/1.1.0", "c3"⟩]

/-- `git merge-base` on the fork topology, for the pairs the scan asks. -/
def mbFork (a b : String) : String :=
  if a = "c3" && b = "c2" then "c1"
  else if a = "c3" && b = "c1" then "c1"
  else "c0"

/-- Two releases of the same component tagged on the same commit `c1`. -/
def chainSelf : List TagRec :=
  [⟨"", "c0"⟩, ⟨"release/comp/1.0.0", "c1"⟩, ⟨"release/comp/1.0.1", "c1"⟩]

/-- `git merge-base c1 c1 = c1`; other pairs are irrelevant to the scan. -/
def mbSelf (a b : String) : String :=
  if a = "c1" && b = "c1" then "c1" else "cQ"

/-- A chain whose single release shares no history with the root: every
merge-base query answers a commit outside the chain. -/
def chainNoAnc : List TagRec := [⟨"", "c0"⟩, ⟨"release/a/1.0.0", "c1"⟩]

def mbNoAnc : String → String → String := fun _ _ => "cZ"

/-- A linear two-release chain used to witness the amended claim C3. -/
def chainLin : List TagRec :=
  [⟨"", "c0"⟩, ⟨"release/a/1.0.0", "c1"⟩, ⟨"release/a/1.1.0", "c2"⟩]

def mbLin (a b : String) : String :=
  if a = "c2" && b = "c1" then "c1" else "cQ"

/-- A four-commit graph `c0 ← c1 ← {c2, c3}` in log order. -/
def wCommits : List String := ["c3", "c2", "c1", "c0"]

/-- Reflexive-transitive reachability of that graph. -/
def wReach (a b : String) : Bool :=
  a == b ||
  [("c1", "c0"), ("c2", "c1"), ("c2", "c0"), ("c3", "c1"), ("c3", "c0")].contains (a, b)

def wDate : String → String := fun _ => "2020-01-01"

def wSubj : String → String := fun c => "msg for " ++ c

/-- A resolved tag for the component `foo`, predecessor commit `c1`. -/
def cexTag : RTag := ⟨⟨"release/foo/1.0.0", "c2"⟩, some ("release/foo/0.9.0", "c1")⟩

/-- One-commit `git log` output used as the oracle answer. -/
def cexLog : String := "\"2020-01-01 abc Fix foobar\"\n"

/-- A `git show --stat` output whose only changed path lies in the SIBLING
component directory `components/foobar/`. -/
def cexStatOut : String :=
  "commit abc\n\n    msg\n\n components/foobar/a.py | 2 +-\n 1 file changed, 2 insertions(+)"

end RNG

namespace RNG

/-! ### Supporting lemmas -/

theorem scanCount_eq_findSome (mb : String → String → String)
    (tags : List TagRec) (ci : String) :
    ∀ k, scanCount mb tags ci k =
      (List.range k).reverse.findSome? (fun j =>
        match tags.get? j with
        | none => none
        | some tj =>
          match indexLookup tags (mb ci tj.tag_commit_id) with
          | some nm => some (nm, mb ci tj.tag_commit_id)
          | none => none)
  | 0 => by simp [scanCount]
  | k + 1 => by
    have heq := scanCount_eq_findSome mb tags ci k
    rw [List.range_succ, List.reverse_append]
    simp only [List.reverse_singleton, List.singleton_append, List.findSome?_cons]
    cases hg : tags.get? k with
    | none => simp only [scanCount, hg, heq]
    | some tj =>
      cases hl : indexLookup tags (mb ci tj.tag_commit_id) with
      | none => simp only [scanCount, hg, hl, heq]
      | some nm => simp only [scanCount, hg, hl]

theorem scanCount_none (mb : String → String → String) (tags : List TagRec)
    (ci : String) :
    ∀ k, (∀ j tj, j < k → tags.get? j = some tj →
      indexLookup tags (mb ci tj.tag_commit_id) = none) →
    scanCount mb tags ci k = none
  | 0, _ => rfl
  | k + 1, h => by
    have hrec := scanCount_none mb tags ci k
      (fun j tj hj hg => h j tj (Nat.lt_succ_of_lt hj) hg)
    cases hg : tags.get? k with
    | none => simp only [scanCount, hg]; exact hrec
    | some tj =>
      simp only [scanCount, hg, h k tj (Nat.lt_succ_self k) hg]
      exact hrec

theorem scanCount_some_lookup (mb : String → String → String)
    (tags : List TagRec) (ci : String) :
    ∀ k n c, scanCount mb tags ci k = some (n, c) → indexLookup tags c = some n
  | 0, _, _, h => by simp [scanCount] at h
  | k + 1, n, c, h => by
    cases hg : tags.get? k with
    | none =>
      simp only [scanCount, hg] at h
      exact scanCount_some_lookup mb tags ci k n c h
    | some tj =>
      cases hl : indexLookup tags (mb ci tj.tag_commit_id) with
      | none =>
        simp only [scanCount, hg, hl] at h
        exact scanCount_some_lookup mb tags ci k n c h
      | some nm =>
        simp only [scanCount, hg, hl, Option.some.injEq, Prod.mk.injEq] at h
        obtain ⟨rfl, rfl⟩ := h
        exact hl

theorem indexLookup_some (tags : List TagRec) (c n : String)
    (h : indexLookup tags c = some n) :
    ∃ k tk, tags.get? k = some tk ∧ tk.tag_commit_id = c ∧ tk.tag_name = n := by
  unfold indexLookup at h
  cases hf : tags.reverse.find? (fun t => t.tag_commit_id == c) with
  | none => rw [hf] at h; simp at h
  | some t =>
    rw [hf] at h
    have hp := List.find?_some hf
    have hmem : t ∈ tags := List.mem_reverse.mp (List.mem_of_find?_eq_some hf)
    obtain ⟨k, hk⟩ := List.get?_of_mem hmem
    simp only [Option.map_some'] at h
    exact ⟨k, t, hk, by simpa using hp, by simpa using h⟩

end RNG

namespace RNG

/-! ### Claim theorems -/

/-- Claim C1: for every component chain, the predecessor of the non-root
tag at index `i` is resolved by scanning candidates `j = i-1, …, 0` in that
order, taking the first `merge-base(commit[i], commit[j])` that is present
in the chain's commit-to-tag index (`specResolve` states exactly that scan);
and on the fork topology `[root@c0, v1.0.0@c1, v1.0.1@c2, v1.1.0@c3]` the
resolver assigns `v1.0.0`, not `v1.0.1`. -/
theorem c1_ancestor_scan :
    (∀ (mb : String → String → String) (tags : List TagRec) (i : Nat),
      resolvePred mb tags i = specResolve mb tags i) ∧
    resolvePred mbFork chainFork 3 = some ("release/comp/1.0.0", "c1") := by
  constructor
  · intro mb tags i
    unfold resolvePred specResolve
    cases tags.get? i with
    | none => rfl
    | some ti => exact scanCount_eq_findSome mb tags ti.tag_commit_id i
  · rfl

/-- Counterexample to claim C2: when the scan exhausts all candidates
without any merge-base landing on an indexed commit, the resolution loop
finishes normally and simply leaves the tag without predecessor keys
(`pre = none`); no error of any kind is produced at resolution time.  The
failure only surfaces later as a `KeyError` when `fetch_github_tickets`
reads the missing `pre_tag_commit_id`. -/
theorem c2_silent_skip_cex :
    resolveChain mbNoAnc chainNoAnc =
      [⟨⟨"", "c0"⟩, none⟩, ⟨⟨"release/a/1.0.0", "c1"⟩, none⟩] ∧
    fetch_github_tickets (fun _ _ => "") (fun _ => "")
      ⟨⟨"release/a/1.0.0", "c1"⟩, none⟩ = .error "KeyError: pre_tag_commit_id" :=
  ⟨rfl, rfl⟩

/-- Claim C2 as amended: when every candidate `j < i` yields a merge-base
absent from the commit-to-tag index, the resolver leaves the tag at index
`i` unresolved (`resolvePred = none`) and completes without raising; no
`NoAncestorFoundError` exists in the code, and the unresolved tag only
fails later with a `KeyError` when consumed. -/
theorem c2_exhausted_scan_unresolved (mb : String → String → String)
    (tags : List TagRec) (i : Nat) (ti : TagRec)
    (hi : tags.get? i = some ti)
    (h : ∀ j tj, j < i → tags.get? j = some tj →
      indexLookup tags (mb ti.tag_commit_id tj.tag_commit_id) = none) :
    resolvePred mb tags i = none := by
  unfold resolvePred
  rw [hi]
  exact scanCount_none mb tags ti.tag_commit_id i h

theorem c2_exhausted_scan_unresolved_witness :
    chainNoAnc.get? 1 = some ⟨"release/a/1.0.0", "c1"⟩ ∧
    resolvePred mbNoAnc chainNoAnc 1 = none := by
  refine ⟨rfl, c2_exhausted_scan_unresolved mbNoAnc chainNoAnc 1
    ⟨"release/a/1.0.0", "c1"⟩ rfl ?_⟩
  intro j tj hj hget
  have hj0 : j = 0 := by omega
  subst hj0
  have : tj = (⟨"", "c0"⟩ : TagRec) := by
    simpa [chainNoAnc] using hget.symm
  subst this
  decide

/-- Counterexample to claim C3: two releases of one component tagged on the
same commit.  The commit-to-tag index is built over the WHOLE chain (the
last writer wins), so resolving `release/comp/1.0.1` at index 2 assigns
`release/comp/1.0.1` itself as its predecessor — the predecessor can equal
the tag being resolved. -/
theorem c3_self_predecessor_cex :
    chainSelf.get? 2 = some ⟨"release/comp/1.0.1", "c1"⟩ ∧
    resolvePred mbSelf chainSelf 2 = some ("release/comp/1.0.1", "c1") :=
  ⟨rfl, rfl⟩

/-- Claim C3 as amended: the index used during resolution covers the whole
chain, so the assigned predecessor is the LAST chain tag carrying the first
matching merge-base commit; whenever that commit is not carried by the tag
itself or any later tag (`hlate`), and no earlier tag shares the resolved
tag's name (`hname`, true for distinct git tag names), the predecessor is a
tag at a strictly earlier chain position and differs from the tag itself. -/
theorem c3_predecessor_strictly_earlier (mb : String → String → String)
    (tags : List TagRec) (i : Nat) (ti : TagRec) (n c : String)
    (hi : tags.get? i = some ti)
    (hres : resolvePred mb tags i = some (n, c))
    (hlate : ∀ k tk, i ≤ k → tags.get? k = some tk → tk.tag_commit_id ≠ c)
    (hname : ∀ k tk, k < i → tags.get? k = some tk → tk.tag_name ≠ ti.tag_name) :
    n ≠ ti.tag_name ∧
    ∃ k tk, k < i ∧ tags.get? k = some tk ∧ tk.tag_name = n ∧
      tk.tag_commit_id = c := by
  unfold resolvePred at hres
  rw [hi] at hres
  have hlk := scanCount_some_lookup mb tags ti.tag_commit_id i n c hres
  obtain ⟨k, tk, hk, hcid, hnm⟩ := indexLookup_some tags c n hlk
  have hki : k < i := by
    by_contra hge
    exact hlate k tk (Nat.le_of_not_lt hge) hk hcid
  refine ⟨?_, k, tk, hki, hk, hnm, hcid⟩
  intro hEq
  exact hname k tk hki hk (hnm.symm ▸ hEq)

theorem c3_predecessor_strictly_earlier_witness :
    resolvePred mbLin chainLin 2 = some ("release/a/1.0.0", "c1") ∧
    (("release/a/1.0.0" : String) ≠
        (TagRec.mk "release/a/1.1.0" "c2").tag_name ∧
      ∃ k tk, k < 2 ∧ chainLin.get? k = some tk ∧
        tk.tag_name = "release/a/1.0.0" ∧ tk.tag_commit_id = "c1") := by
  refine ⟨rfl, c3_predecessor_strictly_earlier mbLin chainLin 2
    ⟨"release/a/1.1.0", "c2"⟩ "release/a/1.0.0" "c1" rfl rfl ?_ ?_⟩
  · intro k tk hk hget
    have hlen : k < chainLin.length := (List.get?_eq_some.mp hget).1
    have hk2 : k = 2 := by simp [chainLin] at hlen; omega
    subst hk2
    have : tk = (⟨"release/a/1.1.0", "c2"⟩ : TagRec) := by
      simpa [chainLin] using hget.symm
    subst this
    decide
  · intro k tk hk hget
    match k, hk with
    | 0, _ =>
      have : tk = (⟨"", "c0"⟩ : TagRec) := by simpa [chainLin] using hget.symm
      subst this; decide
    | 1, _ =>
      have : tk = (⟨"release/a/1.0.0", "c1"⟩ : TagRec) := by
        simpa [chainLin] using hget.symm
      subst this; decide

/-! Lemmas for claims C6, C7, C8, C10 -/

theorem buildRows_foldl : ∀ (ts : List MTicket) (acc : List (List String)),
    ts.foldl (fun rows t => rows ++ [rowOf t]) acc = acc ++ ts.map rowOf
  | [], acc => by simp
  | t :: ts, acc => by
    simp only [List.foldl_cons, List.map_cons]
    rw [buildRows_foldl ts (acc ++ [rowOf t])]
    simp

/-- Claim C6: the Document Assembler's row loop produces exactly one row
per input ticket, in input order. -/
theorem c6_assembler_rows (tickets : List MTicket) :
    buildRows tickets = tickets.map rowOf ∧
    (buildRows tickets).length = tickets.length := by
  have h := buildRows_foldl tickets []
  simp only [List.nil_append] at h
  refine ⟨h, ?_⟩
  show (List.foldl (fun rows t => rows ++ [rowOf t]) [] tickets).length = tickets.length
  rw [h, List.length_map]

theorem fetchJiraOne_fail (g : Nat → JResp) (h : ∀ k, k < 3 → g k = .err) :
    fetchJiraOne g = (none, 3, [2, 4, 8]) := by
  simp [fetchJiraOne, jiraTry, h 0 (by omega), h 1 (by omega), h 2 (by omega)]

theorem fetch_jira_fail (svc : String → Nat → JResp) :
    ∀ (fts : List String) (ft : String), ft ∈ fts → ft ≠ "" →
      (∀ k, k < 3 → svc ft k = .err) →
      ∃ e, fetch_jira_tickets svc fts = .error e
  | [], ft, hmem, _, _ => absurd hmem (List.not_mem_nil ft)
  | f :: rest, ft, hmem, hne, hfail => by
    by_cases hf : f = ""
    · subst hf
      have hmem' : ft ∈ rest := by
        cases List.mem_cons.mp hmem with
        | inl h => exact absurd h hne
        | inr h => exact h
      obtain ⟨e, he⟩ := fetch_jira_fail svc rest ft hmem' hne hfail
      exact ⟨e, by simp [fetch_jira_tickets, he]⟩
    · cases hone : (fetchJiraOne (svc f)).1 with
      | none =>
        refine ⟨"connection to JIRA with ticket " ++ f ++ " failed after 3 times", ?_⟩
        simp only [fetch_jira_tickets, if_neg hf, hone]
      | some d =>
        have hmem' : ft ∈ rest := by
          cases List.mem_cons.mp hmem with
          | inl h =>
            subst h
            rw [fetchJiraOne_fail (svc ft) hfail] at hone
            simp at hone
          | inr h => exact h
        obtain ⟨e, he⟩ := fetch_jira_fail svc rest ft hmem' hne hfail
        exact ⟨e, by simp only [fetch_jira_tickets, if_neg hf, hone, he]⟩

/-- Claim C7: the ticket service is attempted at most 3 times per lookup,
the waits between attempts double (2, 4, 8 seconds, the script sleeping
once more after the final failure before raising); three failures for a
non-empty ticket id abort the whole fetch with the `HTTPError` of line 260
(the spec's `TicketServiceError`), so no rows — hence no document — are
produced. -/
theorem c7_jira_retry (svc : String → Nat → JResp) (fts : List String)
    (ft : String) (hmem : ft ∈ fts) (hne : ft ≠ "")
    (hfail : ∀ k, k < 3 → svc ft k = .err) :
    (∀ g : Nat → JResp, (fetchJiraOne g).2.1 ≤ 3 ∧ (fetchJiraOne g).2.2 <+: [2, 4, 8]) ∧
    fetchJiraOne (svc ft) = (none, 3, [2, 4, 8]) ∧
    (∃ e, fetch_jira_tickets svc fts = .error e) ∧
    ∀ gts : List GTicket, gts.map GTicket.ft = fts →
      ∃ e, step2Rows svc gts = .error e := by
  refine ⟨?_, fetchJiraOne_fail (svc ft) hfail,
    fetch_jira_fail svc fts ft hmem hne hfail, ?_⟩
  · intro g
    cases h0 : g 0 with
    | ok d =>
      have hg : fetchJiraOne g = (some d, 1, []) := by
        simp [fetchJiraOne, jiraTry, h0]
      rw [hg]
      exact ⟨by show (1 : Nat) ≤ 3; omega, List.nil_prefix⟩
    | err =>
      cases h1 : g 1 with
      | ok d =>
        have hg : fetchJiraOne g = (some d, 2, [2]) := by
          simp [fetchJiraOne, jiraTry, h0, h1]
        rw [hg]
        exact ⟨by show (2 : Nat) ≤ 3; omega, ⟨[4, 8], rfl⟩⟩
      | err =>
        cases h2 : g 2 with
        | ok d =>
          have hg : fetchJiraOne g = (some d, 3, [2, 4]) := by
            simp [fetchJiraOne, jiraTry, h0, h1, h2]
          rw [hg]
          exact ⟨by show (3 : Nat) ≤ 3; omega, ⟨[8], rfl⟩⟩
        | err =>
          have hg : fetchJiraOne g = (none, 3, [2, 4, 8]) := by
            simp [fetchJiraOne, jiraTry, h0, h1, h2]
          rw [hg]
          exact ⟨by show (3 : Nat) ≤ 3; omega, ⟨[], by simp⟩⟩
  · intro gts hgts
    obtain ⟨e, he⟩ := fetch_jira_fail svc fts ft hmem hne hfail
    refine ⟨e, ?_⟩
    simp only [step2Rows, hgts, he]

theorem c7_jira_retry_witness :
    ("AB-1" ∈ ["AB-1"] ∧ ("AB-1" : String) ≠ "") ∧
    fetchJiraOne ((fun (_ : String) (_ : Nat) => JResp.err) "AB-1") = (none, 3, [2, 4, 8]) ∧
    (∃ e, fetch_jira_tickets (fun _ _ => JResp.err) ["AB-1"] = .error e) := by
  have h := c7_jira_retry (fun _ _ => JResp.err) ["AB-1"] "AB-1"
    (by decide) (by decide) (fun k _ => rfl)
  exact ⟨⟨by decide, by decide⟩, h.2.1, h.2.2.1⟩

theorem matchVersionAt_dot (cs : List Char) (p : List Char × List Char)
    (h : matchVersionAt cs = some p) : '.' ∈ p.1 := by
  unfold matchVersionAt at h
  split at h
  · exact absurd h (by simp)
  · split at h
    · cases hmt : matchVerTailAux _ _ with
      | none => rw [hmt] at h; exact absurd h (by simp)
      | some q =>
        rw [hmt] at h
        simp only [Option.map_some', Option.some.injEq] at h
        rw [← h]
        exact List.mem_append_right _ (List.mem_cons_self _ _)
    · exact absurd h (by simp)

theorem findVersionFrom_dot : ∀ cs, findVersionFrom cs = [] ∨ '.' ∈ findVersionFrom cs
  | [] => Or.inl rfl
  | c :: rest => by
    cases hm : matchVersionAt (c :: rest) with
    | some p =>
      right
      have hdot := matchVersionAt_dot _ _ hm
      simpa [findVersionFrom, hm] using hdot
    | none =>
      have hrec := findVersionFrom_dot rest
      simpa [findVersionFrom, hm] using hrec

/-- Counterexample to claim C8: a tag whose version has no dot does not
match `RELEASE_BRANCH_REGEX`, so the tag catalog silently drops it and
still succeeds — no `MalformedTagError` exists; and the version validator
REJECTS a single dotless non-negative integer (`VERSION_REGEX` requires at
least one `digits '.'` group). -/
theorem c8_malformed_tags_cex :
    checkVersion "5" = false ∧
    re_findall_release "release/comp/5\nrelease/comp/1.0.0" = ["release/comp/1.0.0"] ∧
    get_release_tag_names_by_date "release/comp/5\nrelease/comp/1.0.0" =
      .ok ["release/comp/1.0.0"] :=
  ⟨rfl, rfl, rfl⟩

/-- Claim C8 as amended: the catalog never raises per malformed tag — the
regex extraction silently keeps only matching substrings and the build
fails (with `ValueError`, the only error in this path) exactly when no tag
matches; and any version accepted by the validator is empty or contains a
dot, so a single dotless integer fails it. -/
theorem c8_tag_catalog_amended :
    (∀ v : String, checkVersion v = true → v = "" ∨ '.' ∈ v.data) ∧
    (∀ text : String,
      (∃ l, get_release_tag_names_by_date text = .ok l) ↔
        re_findall_release text ≠ []) ∧
    get_release_tag_names_by_date "not-a-release-tag\nrelease/comp/2.0.1" =
      .ok ["release/comp/2.0.1"] := by
  refine ⟨?_, ?_, rfl⟩
  · intro v hv
    have hveq : v = findVersion v := by
      have := of_decide_eq_true (by simpa [checkVersion] using hv)
      exact this
    rcases findVersionFrom_dot v.data with h | h
    · left
      rw [hveq]
      show String.mk (findVersionFrom v.data) = ""
      rw [h]
    · right
      have hdata : v.data = findVersionFrom v.data := by
        conv_lhs => rw [hveq]
        rfl
      rw [hdata]
      exact h
  · intro text
    unfold get_release_tag_names_by_date
    by_cases h : (re_findall_release text).reverse = []
    · rw [if_pos h]
      constructor
      · rintro ⟨l, hl⟩
        exact absurd hl (by simp)
      · intro hne
        exact absurd (by simpa using h) hne
    · rw [if_neg h]
      constructor
      · intro _ hc
        simp [hc] at h
      · intro _
        exact ⟨_, rfl⟩

theorem c8_tag_catalog_amended_witness :
    checkVersion "1.0" = true ∧
    (("1.0" : String) = "" ∨ '.' ∈ ("1.0" : String).data) :=
  ⟨rfl, c8_tag_catalog_amended.1 "1.0" rfl⟩

theorem matchFTAt_some : ∀ cs m r, matchFTAt cs = some (m, r) → m ≠ [] ∧ m ++ r = cs := by
  intro cs m r h
  unfold matchFTAt at h
  split at h
  · split at h
    · split at h
      · exact absurd h (by simp)
      · simp only [Option.some.injEq, Prod.mk.injEq] at h
        obtain ⟨rfl, rfl⟩ := h
        refine ⟨by simp, ?_⟩
        simp [List.takeWhile_append_dropWhile]
    · exact absurd h (by simp)
  · exact absurd h (by simp)

theorem matchFTAt_isSome : ∀ cs : List Char, (matchFTAt cs).isSome = specFTStart cs
  | [] => rfl
  | [_] => rfl
  | [_, _] => rfl
  | [a, b, c] => by
    simp [matchFTAt, specFTStart, List.takeWhile_nil]
  | a :: b :: c :: d :: rest => by
    by_cases ha : a.isUpper <;> by_cases hb : b.isUpper <;>
      by_cases hc : c = '-' <;> by_cases hd : d.isDigit <;>
      simp [matchFTAt, specFTStart, List.takeWhile_cons, ha, hb, hc, hd]

theorem findallFTAux_spec : ∀ (fuel : Nat) (cs : List Char), cs.length < fuel →
    findallFTAux fuel cs ≠ [] ∧
    ((findallFTAux fuel cs).headD "" ≠ "" ↔ specHasFT cs = true)
  | 0, _, h => absurd h (by omega)
  | fuel + 1, [], _ => by
    refine ⟨by simp [findallFTAux], ?_⟩
    simp [findallFTAux, specHasFT, specFTStart]
  | fuel + 1, c :: rest, hlen => by
    cases hm : matchFTAt (c :: rest) with
    | some p =>
      obtain ⟨m, r⟩ := p
      obtain ⟨hne, _⟩ := matchFTAt_some _ _ _ hm
      refine ⟨by simp [findallFTAux, hm], ?_⟩
      simp only [findallFTAux, hm, List.headD_cons]
      constructor
      · intro _
        have hstart : specFTStart (c :: rest) = true := by
          rw [← matchFTAt_isSome, hm]
          rfl
        unfold specHasFT
        rw [List.tails_cons]
        simp [hstart]
      · intro _
        exact fun hc => hne (congrArg String.data hc)
    | none =>
      have hrec := findallFTAux_spec fuel rest (by simp at hlen; omega)
      refine ⟨by simpa [findallFTAux, hm] using hrec.1, ?_⟩
      simp only [findallFTAux, hm]
      rw [hrec.2]
      have h0 : specFTStart (c :: rest) = false := by
        rw [← matchFTAt_isSome, hm]
        rfl
      unfold specHasFT
      rw [List.tails_cons]
      simp [h0]

/-- Claim C10: extracting the issue id from a commit line never fails —
`re.findall(FT_REGEX, line)` is never empty because the `|$` branch always
matches — and the first match is non-empty exactly when the line contains a
substring matching `[A-Z]{2}-[0-9]+`; absence is represented by the empty
string, never by a missing match. -/
theorem c10_ft_extraction_total (line : String) :
    re_findall_ft line ≠ [] ∧
    ((re_findall_ft line).headD "" ≠ "" ↔ specHasFT line.data = true) :=
  findallFTAux_spec (line.data.length + 1) line.data (by omega)

/-! Lemmas for claims C4 and C5 -/

theorem mem_dropWhile_of_mem {α : Type} {p : α → Bool} :
    ∀ {l : List α} {x : α}, x ∈ l → p x = false → x ∈ l.dropWhile p
  | a :: l, x, hx, hpx => by
    by_cases hpa : p a
    · rw [List.dropWhile_cons_of_pos hpa]
      cases List.mem_cons.mp hx with
      | inl h => subst h; rw [hpa] at hpx; exact absurd hpx (by simp)
      | inr h => exact mem_dropWhile_of_mem h hpx
    · rw [List.dropWhile_cons_of_neg hpa]
      exact hx

theorem dropWhile_all_false {α : Type} {p : α → Bool} :
    ∀ {l : List α}, (∀ x ∈ l, p x = false) → l.dropWhile p = l
  | [], _ => rfl
  | x :: l, h =>
    List.dropWhile_cons_of_neg (by simp [h x (List.mem_cons_self x l)])

theorem pyStrip_ne_nil {l : List Char} {x : Char} (hx : x ∈ l)
    (hsp : isPySpace x = false) : pyStrip l ≠ [] := by
  intro hc
  unfold pyStrip pyRStrip pyLStrip at hc
  have h1 : x ∈ l.dropWhile isPySpace := mem_dropWhile_of_mem hx hsp
  have h2 : x ∈ (l.dropWhile isPySpace).reverse := List.mem_reverse.mpr h1
  have h3 : x ∈ (l.dropWhile isPySpace).reverse.dropWhile isPySpace :=
    mem_dropWhile_of_mem h2 hsp
  rw [List.reverse_eq_nil_iff.mp hc] at h3
  exact absurd h3 (List.not_mem_nil x)

theorem splitOnChar_append (c : Char) :
    ∀ (l rest : List Char), c ∉ l →
      splitOnChar c (l ++ c :: rest) = l :: splitOnChar c rest
  | [], rest, _ => by simp [splitOnChar]
  | x :: l, rest, hmem => by
    have hx : ¬ x = c := fun h => hmem (h ▸ List.mem_cons_self x l)
    have hl : c ∉ l := fun h => hmem (List.mem_cons_of_mem x h)
    show splitOnChar c (x :: (l ++ c :: rest)) = (x :: l) :: splitOnChar c rest
    simp only [splitOnChar]
    rw [if_neg hx, splitOnChar_append c l rest hl]

theorem splitOnChar_flatten (c : Char) :
    ∀ (L : List (List Char)), (∀ l ∈ L, c ∉ l) →
      splitOnChar c (L.map (· ++ [c])).flatten = L ++ [[]]
  | [], _ => rfl
  | l :: L, h => by
    simp only [List.map_cons, List.flatten_cons]
    rw [List.append_assoc,
      show ([c] : List Char) ++ (List.map (· ++ [c]) L).flatten =
        c :: (List.map (· ++ [c]) L).flatten from rfl,
      splitOnChar_append c l _ (h l (List.mem_cons_self l L)),
      splitOnChar_flatten c L (fun l' hl' => h l' (List.mem_cons_of_mem l hl'))]
    rfl

theorem pyStripChar_wrap (q : Char) (mid : List Char) (hq : q ∉ mid)
    (hne : mid ≠ []) : pyStripChar q (q :: mid ++ [q]) = mid := by
  have hall : ∀ x ∈ mid, (x == q) = false := fun x hx => by
    rw [beq_eq_false_iff_ne]
    exact fun h => hq (h ▸ hx)
  have hmd : mid.dropWhile (· == q) = mid := dropWhile_all_false hall
  have hrev : mid.reverse.dropWhile (· == q) = mid.reverse :=
    dropWhile_all_false (fun y hy => hall y (List.mem_reverse.mp hy))
  have hie : mid.isEmpty = false := by
    cases mid with
    | nil => exact absurd rfl hne
    | cons a b => rfl
  unfold pyStripChar
  rw [List.cons_append, List.dropWhile_cons_of_pos (by simp),
    List.dropWhile_append, hmd, hie]
  simp only [Bool.false_eq_true, if_false]
  rw [List.reverse_append,
    show ([q] : List Char).reverse ++ mid.reverse = q :: mid.reverse from by simp,
    List.dropWhile_cons_of_pos (by simp), hrev, List.reverse_reverse]

theorem pyRStrip_append (A B : List Char) (hB : pyRStrip B ≠ []) :
    pyRStrip (A ++ B) = A ++ pyRStrip B := by
  unfold pyRStrip at hB ⊢
  rw [List.reverse_append, List.dropWhile_append]
  have hie : (B.reverse.dropWhile isPySpace).isEmpty = false := by
    cases h : B.reverse.dropWhile isPySpace with
    | nil => rw [h] at hB; simp at hB
    | cons a b => rfl
  rw [hie]
  simp only [Bool.false_eq_true, if_false]
  rw [List.reverse_append, List.reverse_reverse]

theorem splitOnceChar_append (c : Char) :
    ∀ (A rest : List Char), c ∉ A →
      splitOnceChar c (A ++ c :: rest) = some (A, rest)
  | [], rest, _ => by simp [splitOnceChar]
  | x :: A, rest, hmem => by
    have hx : ¬ x = c := fun h => hmem (h ▸ List.mem_cons_self x A)
    show splitOnceChar c (x :: (A ++ c :: rest)) = some (x :: A, rest)
    simp only [splitOnceChar]
    rw [if_neg hx, splitOnceChar_append c A rest (fun h => hmem (List.mem_cons_of_mem x h))]
    rfl

theorem parse3_core (date subj : String → String) (c : String)
    (h : LogWf date subj c) :
    parse3 (fmtLogCore date subj c) =
      some ((date c).data, c.data, pyRStrip (subj c).data) := by
  obtain ⟨hd1, hd2, hc2, hs2, hs3⟩ := h
  have hqD : ∀ x ∈ (date c).data, x ≠ '"' := fun x hx => (hd2 x hx).2
  have hqC : ∀ x ∈ c.data, x ≠ '"' := fun x hx => (hc2 x hx).2
  have hqS : ∀ x ∈ (subj c).data, x ≠ '"' := fun x hx => (hs2 x hx).1
  have hspD : ∀ x ∈ (date c).data, isPySpace x = false := fun x hx => (hd2 x hx).1
  have hspC : ∀ x ∈ c.data, isPySpace x = false := fun x hx => (hc2 x hx).1
  have hqmid : '"' ∉ (date c).data ++ ' ' :: (c.data ++ ' ' :: (subj c).data) := by
    intro hm
    rcases List.mem_append.mp hm with h | h
    · exact hqD _ h rfl
    · rcases List.mem_cons.mp h with h | h
      · exact absurd h.symm (by decide)
      · rcases List.mem_append.mp h with h | h
        · exact hqC _ h rfl
        · rcases List.mem_cons.mp h with h | h
          · exact absurd h.symm (by decide)
          · exact hqS _ h rfl
  have hmidne : (date c).data ++ ' ' :: (c.data ++ ' ' :: (subj c).data) ≠ [] := by
    cases hd : (date c).data with
    | nil => exact absurd hd hd1
    | cons a b => simp [hd]
  unfold parse3
  rw [show fmtLogCore date subj c =
      '"' :: ((date c).data ++ ' ' :: (c.data ++ ' ' :: (subj c).data)) ++ ['"'] from by
    simp [fmtLogCore]]
  rw [pyStripChar_wrap '"' _ hqmid hmidne]
  have hstrip : pyStrip ((date c).data ++ ' ' :: (c.data ++ ' ' :: (subj c).data)) =
      (date c).data ++ ' ' :: (c.data ++ ' ' :: pyRStrip (subj c).data) := by
    unfold pyStrip
    have hls : pyLStrip ((date c).data ++ ' ' :: (c.data ++ ' ' :: (subj c).data)) =
        (date c).data ++ ' ' :: (c.data ++ ' ' :: (subj c).data) := by
      unfold pyLStrip
      cases hd : (date c).data with
      | nil => exact absurd hd hd1
      | cons a b =>
        rw [List.cons_append, List.dropWhile_cons_of_neg]
        have := hspD a (by rw [hd]; exact List.mem_cons_self a b)
        simp [this]
    rw [hls]
    rw [show (date c).data ++ ' ' :: (c.data ++ ' ' :: (subj c).data) =
        ((date c).data ++ ' ' :: c.data ++ [' ']) ++ (subj c).data from by simp]
    rw [pyRStrip_append _ _ hs3]
    simp
  have e1 := splitOnceChar_append ' ' (date c).data
    (c.data ++ ' ' :: pyRStrip (subj c).data)
    (fun hm => absurd (hspD ' ' hm) (by decide))
  have e2 := splitOnceChar_append ' ' c.data (pyRStrip (subj c).data)
    (fun hm => absurd (hspC ' ' hm) (by decide))
  rw [hstrip]
  simp only [e1, e2]

theorem fetchLines_gitLogOutput (commits : List String)
    (reach : String → String → Bool) (date subj : String → String)
    (a b : String) (hwf : ∀ c ∈ commits, LogWf date subj c) :
    fetchLines (gitLogOutput commits reach date subj a b) =
      (logThreeDot commits reach a b).map (fmtLogCore date subj) := by
  unfold fetchLines gitLogOutput
  have hmap : (logThreeDot commits reach a b).map (fmtLogLine date subj) =
      ((logThreeDot commits reach a b).map (fmtLogCore date subj)).map
        (· ++ ['\n']) := by
    rw [List.map_map]
    exact List.map_congr_left (fun c _ => by
      simp [fmtLogLine, fmtLogCore, Function.comp])
  rw [show (String.mk ((logThreeDot commits reach a b).map
        (fmtLogLine date subj)).flatten).data =
      ((logThreeDot commits reach a b).map (fmtLogLine date subj)).flatten from rfl]
  rw [hmap, splitOnChar_flatten '\n' _ ?hnl]
  case hnl =>
    intro l hl
    obtain ⟨c, hc, rfl⟩ := List.mem_map.mp hl
    have hw := hwf c (List.mem_of_mem_filter hc)
    obtain ⟨_, hd2, hc2, hs2, _⟩ := hw
    intro hm
    unfold fmtLogCore at hm
    rcases List.mem_append.mp hm with h | h
    case inr =>
      rcases List.mem_cons.mp h with h | h
      · exact absurd h (by decide)
      · exact absurd h (List.not_mem_nil _)
    rcases List.mem_append.mp h with h | h
    case inr =>
      rcases List.mem_cons.mp h with h | h
      · exact absurd h (by decide)
      · exact absurd (hs2 _ h).2 (by simp)
    rcases List.mem_append.mp h with h | h
    case inr =>
      rcases List.mem_cons.mp h with h | h
      · exact absurd h (by decide)
      · exact absurd (hc2 _ h).1 (by decide)
    rcases List.mem_cons.mp h with h | h
    · exact absurd h (by decide)
    · exact absurd (hd2 _ h).1 (by decide)
  rw [List.filter_append]
  rw [show (([[]] : List (List Char)).filter fun l => !(pyStrip l).isEmpty) =
      ([] : List (List Char)) from rfl]
  rw [List.append_nil]
  apply List.filter_eq_self.mpr
  intro l hl
  obtain ⟨c, hc, rfl⟩ := List.mem_map.mp hl
  have hne : pyStrip (fmtLogCore date subj c) ≠ [] :=
    pyStrip_ne_nil (x := '"') (List.mem_cons_self _ _) (by decide)
  cases hps : pyStrip (fmtLogCore date subj c) with
  | nil => exact absurd hps hne
  | cons a' b' => rfl

/-- Claim C4: for a resolved pair the predecessor commit is a merge-base,
hence an ancestor of the tag commit (`hsub`); under that condition the
three-dot symmetric-difference log the script requests (line 186) equals
the spec's two-dot range — the commits reachable from the tag commit but
not from the predecessor — and the script derives exactly one candidate
line per commit of that range (each parsing back to that commit id), in
log order. -/
theorem c4_scope_range (commits : List String)
    (reach : String → String → Bool) (date subj : String → String)
    (a b : String)
    (hsub : ∀ c ∈ commits, reach a c = true → reach b c = true)
    (hwf : ∀ c ∈ commits, LogWf date subj c) :
    logThreeDot commits reach a b = logTwoDotSpec commits reach a b ∧
    (fetchLines (gitLogOutput commits reach date subj a b)).map
        (fun l => (parse3 l).map (fun p => String.mk p.2.1)) =
      (logTwoDotSpec commits reach a b).map (fun c => some c) := by
  have h3 : logThreeDot commits reach a b = logTwoDotSpec commits reach a b := by
    unfold logThreeDot logTwoDotSpec
    apply List.filter_congr
    intro c hc
    cases hac : reach a c with
    | true =>
      rw [hsub c hc hac]
      rfl
    | false =>
      cases hbc : reach b c <;> rfl
  refine ⟨h3, ?_⟩
  rw [fetchLines_gitLogOutput commits reach date subj a b hwf, h3, List.map_map]
  apply List.map_congr_left
  intro c hc
  have hw : LogWf date subj c := hwf c (List.mem_of_mem_filter (h3 ▸ hc))
  simp only [Function.comp]
  rw [parse3_core date subj c hw]
  rfl

theorem c4_scope_range_witness :
    ((∀ c ∈ wCommits, wReach "c1" c = true → wReach "c2" c = true) ∧
      (∀ c ∈ wCommits, LogWf wDate wSubj c)) ∧
    logThreeDot wCommits wReach "c1" "c2" = logTwoDotSpec wCommits wReach "c1" "c2" ∧
    (fetchLines (gitLogOutput wCommits wReach wDate wSubj "c1" "c2")).map
        (fun l => (parse3 l).map (fun p => String.mk p.2.1)) =
      (logTwoDotSpec wCommits wReach "c1" "c2").map (fun c => some c) := by
  have h := c4_scope_range wCommits wReach wDate wSubj "c1" "c2"
    (by decide) (by decide)
  exact ⟨⟨by decide, by decide⟩, h.1, h.2⟩

/-- Counterexample to claim C5: component `foo`, a commit whose ONLY
changed path is `components/foobar/a.py` — a path in a sibling component's
directory, not under `components/foo/`.  The script's check is
`startswith('components/foo')` with no trailing separator (line 199), so
the ticket IS included although no changed path falls under the
component's subtree. -/
theorem c5_prefix_cex :
    fetch_github_tickets (fun _ _ => cexLog) (fun _ => cexStatOut) cexTag =
      .ok [⟨"2020-01-01", "abc", "Fix foobar", "", ""⟩] ∧
    pathUnderComponent "foo" "components/foobar/a.py" = false :=
  ⟨rfl, rfl⟩

theorem scanStat_first_match (dir : List Char) :
    ∀ (pre : List (List Char)) (f : List Char) (suf : List (List Char)),
      (∀ g ∈ pre, pyStrip g ≠ [] ∧ dir.isPrefixOf (pyStrip g) = false) →
      pyStrip f ≠ [] → dir.isPrefixOf (pyStrip f) = true →
      scanStat dir (pre ++ f :: suf) = true
  | [], f, suf, _, hfne, hf => by
    show scanStat dir (f :: suf) = true
    simp only [scanStat]
    rw [if_neg hfne, if_pos hf]
  | g :: pre, f, suf, h, hfne, hf => by
    have hg := h g (List.mem_cons_self g pre)
    show scanStat dir (g :: (pre ++ f :: suf)) = true
    simp only [scanStat]
    rw [if_neg hg.1, if_neg (by simp [hg.2])]
    exact scanStat_first_match dir pre f suf
      (fun g' hg' => h g' (List.mem_cons_of_mem g hg')) hfne hf

theorem fetchLoop_eq_filter (statOf : String → String) (dir : List Char) :
    ∀ lines : List (List Char), (∀ l ∈ lines, (parse3 l).isSome) →
      fetchLoop statOf dir lines = .ok (specScopeFilter statOf dir lines)
  | [], _ => rfl
  | line :: rest, h => by
    have hl := h line (List.mem_cons_self line rest)
    cases hp : parse3 line with
    | none => rw [hp] at hl; simp at hl
    | some trip =>
      obtain ⟨d, hcm, t⟩ := trip
      have hrec := fetchLoop_eq_filter statOf dir rest
        (fun l hl' => h l (List.mem_cons_of_mem line hl'))
      simp only [fetchLoop, hp, hrec, specScopeFilter, List.filterMap_cons]
      cases hfc : scanStat dir (statLinesOf statOf hcm).reverse with
      | true => simp [candTicket, specScopeFilter]
      | false => simp [specScopeFilter]

/-- Claim C5 as amended: a commit's ticket is included exactly when the
reversed walk over its `git show --stat` lines, stopping at the first blank
line, meets a line whose stripped text has the string
`components/<component>` — WITHOUT a trailing separator — as a prefix, so
paths of sibling components whose directory name extends the component's
name also qualify; the walk stops at the first qualifying line, and the
output preserves the commit order of the log. -/
theorem c5_scope_filter_amended (gitLog : String → String → String)
    (statOf : String → String) (t : RTag) (pre_name pre_cid : String)
    (comp : List Char)
    (hpre : t.pre = some (pre_name, pre_cid))
    (hcomp : (splitOnChar '/' (pyStripChar '/' t.tag_name.data)).get? 1 = some comp)
    (hparse : ∀ l ∈ fetchLines (gitLog pre_cid t.tag_commit_id), (parse3 l).isSome) :
    fetch_github_tickets gitLog statOf t =
      .ok (specScopeFilter statOf ("components/".data ++ comp)
        (fetchLines (gitLog pre_cid t.tag_commit_id))) ∧
    (∀ (dir : List Char) (pre : List (List Char)) (f : List Char)
        (suf : List (List Char)),
      (∀ g ∈ pre, pyStrip g ≠ [] ∧ dir.isPrefixOf (pyStrip g) = false) →
      pyStrip f ≠ [] → dir.isPrefixOf (pyStrip f) = true →
      scanStat dir (pre ++ f :: suf) = true) := by
  constructor
  · unfold fetch_github_tickets
    rw [hpre, hcomp]
    exact fetchLoop_eq_filter statOf _ _ hparse
  · intro dir pre f suf hpre' hfne hf
    exact scanStat_first_match dir pre f suf hpre' hfne hf

/-! Lemmas for claim C9 -/

theorem splitLinesAux_newline :
    ∀ (mid acc rest : List Char), '\n' ∉ mid →
      splitLinesAux acc (mid ++ '\n' :: rest) =
        (acc.reverse ++ mid ++ ['\n']) :: splitLinesAux [] rest
  | [], acc, rest, _ => by
    show splitLinesAux acc ('\n' :: rest) = (acc.reverse ++ [] ++ ['\n']) :: _
    simp [splitLinesAux]
  | c :: mid, acc, rest, hmem => by
    have hc : ¬ c = '\n' := fun h => hmem (h ▸ List.mem_cons_self c mid)
    show splitLinesAux acc (c :: (mid ++ '\n' :: rest)) = _
    simp only [splitLinesAux]
    rw [if_neg hc,
      splitLinesAux_newline mid (c :: acc) rest
        (fun h => hmem (List.mem_cons_of_mem c h))]
    simp

theorem splitLines_flatten :
    ∀ (L : List (List Char)), (∀ ln ∈ L, WfLine ln) →
      ∀ rest, splitLinesAux [] (L.flatten ++ rest) = L ++ splitLinesAux [] rest
  | [], _, rest => by simp
  | ln :: L, h, rest => by
    obtain ⟨mid, hmid, hnl⟩ := h ln (List.mem_cons_self ln L)
    subst hmid
    simp only [List.flatten_cons]
    rw [List.append_assoc, List.append_assoc,
      show (['\n'] : List Char) ++ (L.flatten ++ rest) =
        '\n' :: (L.flatten ++ rest) from rfl,
      splitLinesAux_newline mid [] _ hnl,
      splitLines_flatten L (fun l hl => h l (List.mem_cons_of_mem _ hl)) rest]
    simp

theorem splitLines_flatten_nil (L : List (List Char))
    (h : ∀ ln ∈ L, WfLine ln) : splitLines L.flatten = L := by
  unfold splitLines
  have h1 := splitLines_flatten L h []
  have h2 : splitLinesAux ([] : List Char) [] = [] := rfl
  rw [List.append_nil, h2] at h1
  simpa using h1

theorem mem_of_mem_splitOnChar (c : Char) :
    ∀ (l p : List Char), p ∈ splitOnChar c l → ∀ x ∈ p, x ∈ l
  | [], p, hp, x, hx => by
    simp only [splitOnChar, List.mem_singleton] at hp
    subst hp
    exact absurd hx (List.not_mem_nil x)
  | y :: l, p, hp, x, hx => by
    simp only [splitOnChar] at hp
    by_cases hy : y = c
    · rw [if_pos hy] at hp
      rcases List.mem_cons.mp hp with h | h
      · subst h; exact absurd hx (List.not_mem_nil x)
      · exact List.mem_cons_of_mem y (mem_of_mem_splitOnChar c l p h x hx)
    · rw [if_neg hy] at hp
      cases hs : splitOnChar c l with
      | nil =>
        rw [hs] at hp
        have hp' : p ∈ [[y]] := hp
        have hpy : p = [y] := List.mem_singleton.mp hp'
        subst hpy
        have hxy : x = y := List.mem_singleton.mp hx
        subst hxy
        exact List.mem_cons_self x l
      | cons q t =>
        rw [hs] at hp
        have hp' : p ∈ (y :: q) :: t := hp
        rcases List.mem_cons.mp hp' with h | h
        · subst h
          rcases List.mem_cons.mp hx with h' | h'
          · subst h'
            exact List.mem_cons_self x l
          · refine List.mem_cons_of_mem y
              (mem_of_mem_splitOnChar c l q ?_ x h')
            rw [hs]
            exact List.mem_cons_self q t
        · refine List.mem_cons_of_mem y
            (mem_of_mem_splitOnChar c l p ?_ x hx)
          rw [hs]
          exact List.mem_cons_of_mem q h

theorem splitOnChar_no (c : Char) : ∀ l, c ∉ l → splitOnChar c l = [l]
  | [], _ => rfl
  | x :: l, h => by
    simp only [splitOnChar]
    rw [if_neg (fun hx => h (by rw [← hx]; exact List.mem_cons_self x l)),
      splitOnChar_no c l (fun hl => h (List.mem_cons_of_mem x hl))]

theorem getLastD_cases {α : Type} (d : α) :
    ∀ l : List α, l.getLastD d = d ∨ l.getLastD d ∈ l
  | [] => Or.inl rfl
  | a :: t => by
    rw [List.getLastD_cons]
    rcases getLastD_cases a t with h | h
    · right; rw [h]; exact List.mem_cons_self a t
    · right; exact List.mem_cons_of_mem a h

theorem mem_pyJoin (sep : List Char) :
    ∀ (L : List (List Char)) (x : Char),
      x ∈ pyJoin sep L → x ∈ sep ∨ ∃ l ∈ L, x ∈ l
  | [], x, hx => absurd hx (List.not_mem_nil x)
  | [l], x, hx => Or.inr ⟨l, by simp, hx⟩
  | l :: l2 :: L, x, hx => by
    simp only [pyJoin] at hx
    rcases List.mem_append.mp hx with h | h
    · rcases List.mem_append.mp h with h1 | h1
      · exact Or.inr ⟨l, List.mem_cons_self l (l2 :: L), h1⟩
      · exact Or.inl h1
    · rcases mem_pyJoin sep (l2 :: L) x h with h1 | ⟨l', hl', hx'⟩
      · exact Or.inl h1
      · exact Or.inr ⟨l', List.mem_cons_of_mem l hl', hx'⟩

theorem grepStep_skip (acc : List (List Char × List Char)) (line : List Char)
    (hE : markE.isPrefixOf line = false) (hS : markS.isPrefixOf line = false) :
    grepStep (none, acc) line = (none, acc) := by
  simp [grepStep, hE, hS]

theorem grepStep_acc (t : List Char) (acc : List (List Char × List Char))
    (line : List Char)
    (hE : markE.isPrefixOf line = false) (hS : markS.isPrefixOf line = false) :
    grepStep (some t, acc) line = (some t, appendEntry acc t line) := by
  simp [grepStep, hE, hS]

theorem grep_fold_summary (t : List Char) :
    ∀ (L : List (List Char)) (v : List Char),
      (∀ ln ∈ L, markS.isPrefixOf ln = false ∧ markE.isPrefixOf ln = false) →
      List.foldl grepStep (some t, [(t, v)]) L = (some t, [(t, v ++ L.flatten)])
  | [], v, _ => by simp
  | ln :: L, v, h => by
    have h1 := h ln (List.mem_cons_self ln L)
    rw [List.foldl_cons, grepStep_acc t [(t, v)] ln h1.2 h1.1]
    have he : appendEntry [(t, v)] t ln = [(t, v ++ ln)] := by
      simp [appendEntry, lookupEntry, updateEntry]
    rw [he, grep_fold_summary t L (v ++ ln)
      (fun l hl => h l (List.mem_cons_of_mem ln hl))]
    simp

theorem grep_fold_skip (acc : List (List Char × List Char)) :
    ∀ L : List (List Char),
      (∀ ln ∈ L, markS.isPrefixOf ln = false ∧ markE.isPrefixOf ln = false) →
      List.foldl grepStep (none, acc) L = (none, acc)
  | [], _ => rfl
  | ln :: L, h => by
    have h1 := h ln (List.mem_cons_self ln L)
    rw [List.foldl_cons, grepStep_skip acc ln h1.2 h1.1,
      grep_fold_skip acc L (fun l hl => h l (List.mem_cons_of_mem ln hl))]

theorem grepStep_start (acc : List (List Char × List Char)) (tag : List Char)
    (htag1 : tag.dropWhile isPySpace = tag)
    (htag2 : tag.reverse.dropWhile isPySpace = tag.reverse)
    (hsemi : ';' ∉ tag) :
    grepStep (none, acc)
      (markS ++ " ".data ++ tag ++ "; Don't modify/delete this comment.-->\n".data) =
      (some tag, updateEntry acc tag []) := by
  have hE : markE.isPrefixOf
      (markS ++ " ".data ++ tag ++ "; Don't modify/delete this comment.-->\n".data) =
      false := rfl
  have hS : markS.isPrefixOf
      (markS ++ " ".data ++ tag ++ "; Don't modify/delete this comment.-->\n".data) =
      true := rfl
  have hstr : pyStrip
      (markS ++ " ".data ++ tag ++ "; Don't modify/delete this comment.-->\n".data) =
      markS ++ " ".data ++ tag ++ "; Don't modify/delete this comment.-->".data := by
    unfold pyStrip
    rw [show pyLStrip
        (markS ++ " ".data ++ tag ++ "; Don't modify/delete this comment.-->\n".data) =
        markS ++ " ".data ++ tag ++ "; Don't modify/delete this comment.-->\n".data
      from rfl]
    rw [pyRStrip_append (markS ++ " ".data ++ tag)
      "; Don't modify/delete this comment.-->\n".data (by decide)]
    rfl
  have hsemi2 : ';' ∉ " ".data ++ tag := by
    intro hm
    rcases List.mem_append.mp hm with h | h
    · exact absurd h (by decide)
    · exact hsemi h
  have hassoc : markS ++ " ".data ++ tag ++ "; Don't modify/delete this comment.-->".data =
      "<!--Summary Block".data ++ ';' ::
        ((" ".data ++ tag) ++ ';' :: " Don't modify/delete this comment.-->".data) := by
    simp only [List.append_assoc]
    rfl
  have hsplit : splitOnChar ';' (pyStrip
      (markS ++ " ".data ++ tag ++ "; Don't modify/delete this comment.-->\n".data)) =
      ["<!--Summary Block".data, " ".data ++ tag,
       " Don't modify/delete this comment.-->".data] := by
    rw [hstr, hassoc,
      splitOnChar_append ';' "<!--Summary Block".data _ (by decide),
      splitOnChar_append ';' (" ".data ++ tag) _ hsemi2,
      splitOnChar_no ';' " Don't modify/delete this comment.-->".data (by decide)]
  have hfin : pyStrip (" ".data ++ tag) = tag := by
    unfold pyStrip pyLStrip pyRStrip
    rw [show " ".data ++ tag = ' ' :: tag from rfl,
      List.dropWhile_cons_of_pos (by decide), htag1, htag2, List.reverse_reverse]
  simp only [grepStep, hE, hS, Bool.false_eq_true, if_false, if_true, hsplit]
  rw [show (["<!--Summary Block".data, " ".data ++ tag,
      " Don't modify/delete this comment.-->".data]).getD 1 [] =
      " ".data ++ tag from rfl]
  rw [hfin]

theorem grepStep_end (t : List Char) (acc : List (List Char × List Char))
    (tag : List Char) :
    grepStep (some t, acc)
      (markE ++ " ".data ++ tag ++ "; Don't modify/delete this comment.-->\n".data) =
      (none, acc) := by
  have hE : markE.isPrefixOf
      (markE ++ " ".data ++ tag ++ "; Don't modify/delete this comment.-->\n".data) =
      true := rfl
  have hS : markS.isPrefixOf
      (markE ++ " ".data ++ tag ++ "; Don't modify/delete this comment.-->\n".data) =
      false := rfl
  simp only [grepStep, hE, hS, Bool.false_eq_true, if_false, if_true]

theorem wfLine_endsWith (X C : List Char) (hX : '\n' ∉ X) (hC : '\n' ∉ C) :
    WfLine (X ++ (C ++ ['\n'])) :=
  ⟨X ++ C, by rw [List.append_assoc], by
    intro hm
    rcases List.mem_append.mp hm with h | h
    · exact hX h
    · exact hC h⟩

theorem getD_cases {α : Type} (d : α) :
    ∀ (l : List α) (n : Nat), l.getD n d = d ∨ l.getD n d ∈ l
  | [], _ => Or.inl rfl
  | a :: l, 0 => Or.inr (List.mem_cons_self a l)
  | a :: l, n + 1 => by
    have he : (a :: l).getD (n + 1) d = l.getD n d := rfl
    rw [he]
    rcases getD_cases d l n with h | h
    · exact Or.inl h
    · exact Or.inr (List.mem_cons_of_mem a h)

theorem no_newline_getLastD (l : List Char) (h : '\n' ∉ l) :
    '\n' ∉ (splitOnChar '/' l).getLastD [] := by
  intro hm
  rcases getLastD_cases [] (splitOnChar '/' l) with he | hmem
  · rw [he] at hm
    exact absurd hm (List.not_mem_nil _)
  · exact h (mem_of_mem_splitOnChar '/' l _ hmem '\n' hm)

theorem no_newline_getD (l : List Char) (h : '\n' ∉ l) :
    '\n' ∉ (splitOnChar '/' l).getD 1 [] := by
  intro hm
  rcases getD_cases [] (splitOnChar '/' l) 1 with he | hmem
  · rw [he] at hm
    exact absurd hm (List.not_mem_nil _)
  · exact h (mem_of_mem_splitOnChar '/' l _ hmem '\n' hm)

set_option maxRecDepth 4000 in
theorem gen_text_eq_flatten (release_date : String) (headers : List String)
    (sLines : List (List Char)) (rows : List (List String))
    (tag_name pre_name pre_cid t_cid : String) :
    gen_text_data release_date headers sLines.flatten rows
        tag_name pre_name pre_cid t_cid =
      (gen_lines release_date headers sLines rows
        tag_name pre_name pre_cid t_cid).flatten := by
  simp [gen_text_data, gen_lines, List.flatten_append, List.flatten_cons,
    List.append_assoc]

theorem c5_scope_filter_amended_witness :
    (cexTag.pre = some ("release/foo/0.9.0", "c1") ∧
      (splitOnChar '/' (pyStripChar '/' cexTag.tag_name.data)).get? 1 =
        some "foo".data ∧
      ∀ l ∈ fetchLines cexLog, (parse3 l).isSome) ∧
    fetch_github_tickets (fun _ _ => cexLog) (fun _ => cexStatOut) cexTag =
      .ok (specScopeFilter (fun _ => cexStatOut)
        ("components/".data ++ "foo".data) (fetchLines cexLog)) := by
  have h := c5_scope_filter_amended (fun _ _ => cexLog) (fun _ => cexStatOut)
    cexTag "release/foo/0.9.0" "c1" "foo".data rfl (by decide) (by decide)
  exact ⟨⟨rfl, by decide, by decide⟩, h.1⟩

/-- Claim C9: generating a release's markdown with a previously extracted
summary block (already left-stripped, newline-terminated lines that are not
marker lines), then re-reading the generated text line by line and running
the summary extraction, returns exactly the injected summary bytes for the
release's tag name — the idempotent-merge round-trip. -/
theorem c9_summary_roundtrip (release_date : String) (headers : List String)
    (rows : List (List String)) (tagName pre_name pre_cid t_cid : String)
    (sLines : List (List Char))
    (hlen : ∀ r ∈ rows, headers.length = r.length)
    (hwf : ∀ ln ∈ sLines, WfLine ln)
    (hnoS : ∀ ln ∈ sLines, markS.isPrefixOf ln = false)
    (hnoE : ∀ ln ∈ sLines, markE.isPrefixOf ln = false)
    (hsum : sLines.flatten.dropWhile isPySpace = sLines.flatten)
    (htag1 : tagName.data.dropWhile isPySpace = tagName.data)
    (htag2 : tagName.data.reverse.dropWhile isPySpace = tagName.data.reverse)
    (htagsemi : ';' ∉ tagName.data) (htagnl : '\n' ∉ tagName.data)
    (hdnl : '\n' ∉ release_date.data) (hpnl : '\n' ∉ pre_name.data)
    (hpcnl : '\n' ∉ pre_cid.data) (htcnl : '\n' ∉ t_cid.data)
    (hhnl : ∀ h ∈ headers, '\n' ∉ h.data)
    (hrnl : ∀ r ∈ rows, ∀ cell ∈ r, '\n' ∉ cell.data) :
    generate_markdown_text release_date headers (String.mk sLines.flatten) rows
        ⟨⟨tagName, t_cid⟩, some (pre_name, pre_cid)⟩ =
      .ok (String.mk (gen_text_data release_date headers sLines.flatten rows
        tagName pre_name pre_cid t_cid)) ∧
    lookupEntry (grep_old_markdown_summary (splitLines
        (gen_text_data release_date headers sLines.flatten rows
          tagName pre_name pre_cid t_cid))) tagName.data =
      some sLines.flatten := by
  constructor
  · unfold generate_markdown_text
    rw [if_neg ?hcond]
    case hcond =>
      intro hc
      obtain ⟨r, hr, hne⟩ := List.any_eq_true.mp hc
      exact (of_decide_eq_true hne) (hlen r hr)
  · have hwfAll : ∀ ln ∈ gen_lines release_date headers sLines rows
        tagName pre_name pre_cid t_cid, WfLine ln := by
      intro ln hln
      unfold gen_lines at hln
      rcases List.mem_append.mp hln with h | h
      case inr =>
        rcases List.mem_cons.mp h with rfl | h
        · exact wfLine_endsWith [] [] (by decide) (by decide)
        rcases List.mem_cons.mp h with rfl | h
        · refine wfLine_endsWith ("Previous Release: `".data ++ pre_name.data)
            ['`'] ?_ (by decide)
          intro hm
          rcases List.mem_append.mp hm with h1 | h1
          · exact absurd h1 (by decide)
          · exact hpnl h1
        rcases List.mem_cons.mp h with rfl | h
        · exact wfLine_endsWith [] [] (by decide) (by decide)
        rcases List.mem_cons.mp h with rfl | h
        · refine wfLine_endsWith ("[Compare changes on Github](".data ++
            GITHUB_CMP_URL.data ++ pre_cid.data ++ "...".data ++ t_cid.data)
            [')'] ?_ (by decide)
          intro hm
          rcases List.mem_append.mp hm with h1 | h1
          · rcases List.mem_append.mp h1 with h2 | h2
            · rcases List.mem_append.mp h2 with h3 | h3
              · rcases List.mem_append.mp h3 with h4 | h4
                · exact absurd h4 (by decide)
                · exact absurd h4 (by decide)
              · exact hpcnl h3
            · exact absurd h2 (by decide)
          · exact htcnl h1
        rcases List.mem_cons.mp h with rfl | h
        · exact wfLine_endsWith [] [] (by decide) (by decide)
        rcases List.mem_cons.mp h with rfl | h
        · exact wfLine_endsWith [] [] (by decide) (by decide)
        rcases List.mem_cons.mp h with rfl | h
        · exact wfLine_endsWith [] "```".data (by decide) (by decide)
        rcases List.mem_cons.mp h with rfl | h
        · refine wfLine_endsWith (">> git diff ".data ++ pre_cid.data ++
            " ".data ++ t_cid.data ++ " components/".data ++
            (splitOnChar '/' tagName.data).getD 1 []) ['/'] ?_ (by decide)
          intro hm
          rcases List.mem_append.mp hm with h1 | h1
          · rcases List.mem_append.mp h1 with h2 | h2
            · rcases List.mem_append.mp h2 with h3 | h3
              · rcases List.mem_append.mp h3 with h4 | h4
                · rcases List.mem_append.mp h4 with h5 | h5
                  · exact absurd h5 (by decide)
                  · exact hpcnl h5
                · exact absurd h4 (by decide)
              · exact htcnl h3
            · exact absurd h2 (by decide)
          · exact no_newline_getD tagName.data htagnl h1
        rcases List.mem_cons.mp h with rfl | h
        · exact wfLine_endsWith [] "```".data (by decide) (by decide)
        · exact absurd h (List.not_mem_nil ln)
      rcases List.mem_append.mp h with h | h
      case inr =>
        obtain ⟨r, hr, rfl⟩ := List.mem_map.mp h
        refine wfLine_endsWith ('|' :: pyJoin "|".data (r.map String.data))
          ['|'] ?_ (by decide)
        intro hm
        rcases List.mem_cons.mp hm with h1 | h1
        · exact absurd h1 (by decide)
        · rcases mem_pyJoin "|".data (r.map String.data) '\n' h1 with
            h2 | ⟨l', hl', h3⟩
          · exact absurd h2 (by decide)
          · obtain ⟨cell, hcell, rfl⟩ := List.mem_map.mp hl'
            exact hrnl r hr cell hcell h3
      rcases List.mem_append.mp h with h | h
      case inr =>
        rcases List.mem_cons.mp h with rfl | h
        · refine wfLine_endsWith (markE ++ " ".data ++ tagName.data)
            "; Don't modify/delete this comment.-->".data ?_ (by decide)
          intro hm
          rcases List.mem_append.mp hm with h1 | h1
          · rcases List.mem_append.mp h1 with h2 | h2
            · exact absurd h2 (by decide)
            · exact absurd h2 (by decide)
          · exact htagnl h1
        rcases List.mem_cons.mp h with rfl | h
        · exact wfLine_endsWith [] [] (by decide) (by decide)
        rcases List.mem_cons.mp h with rfl | h
        · refine wfLine_endsWith ("| ".data ++
            pyJoin " | ".data (headers.map String.data)) " |".data ?_ (by decide)
          intro hm
          rcases List.mem_append.mp hm with h1 | h1
          · exact absurd h1 (by decide)
          · rcases mem_pyJoin " | ".data (headers.map String.data) '\n' h1 with
              h2 | ⟨l', hl', h3⟩
            · exact absurd h2 (by decide)
            · obtain ⟨hd, hhd, rfl⟩ := List.mem_map.mp hl'
              exact hhnl hd hhd h3
        rcases List.mem_cons.mp h with rfl | h
        · refine wfLine_endsWith ("|".data ++
            pyJoin "|".data (headers.map mdSepCell)) ['|'] ?_ (by decide)
          intro hm
          rcases List.mem_append.mp hm with h1 | h1
          · exact absurd h1 (by decide)
          · rcases mem_pyJoin "|".data (headers.map mdSepCell) '\n' h1 with
              h2 | ⟨l', hl', h3⟩
            · exact absurd h2 (by decide)
            · obtain ⟨hd, hhd, rfl⟩ := List.mem_map.mp hl'
              have h4 := List.eq_of_mem_replicate h3
              exact absurd h4 (by decide)
        · exact absurd h (List.not_mem_nil ln)
      rcases List.mem_append.mp h with h | h
      case inr => exact hwf ln h
      rcases List.mem_cons.mp h with rfl | h
      · exact wfLine_endsWith [] [] (by decide) (by decide)
      rcases List.mem_cons.mp h with rfl | h
      · refine wfLine_endsWith ("## `".data ++
          (splitOnChar '/' tagName.data).getLastD [] ++ "` `".data ++
          release_date.data) ['`'] ?_ (by decide)
        intro hm
        rcases List.mem_append.mp hm with h1 | h1
        · rcases List.mem_append.mp h1 with h2 | h2
          · rcases List.mem_append.mp h2 with h3 | h3
            · exact absurd h3 (by decide)
            · exact no_newline_getLastD tagName.data htagnl h3
          · exact absurd h2 (by decide)
        · exact hdnl h1
      rcases List.mem_cons.mp h with rfl | h
      · exact wfLine_endsWith [] [] (by decide) (by decide)
      rcases List.mem_cons.mp h with rfl | h
      · refine wfLine_endsWith (markS ++ " ".data ++ tagName.data)
          "; Don't modify/delete this comment.-->".data ?_ (by decide)
        intro hm
        rcases List.mem_append.mp hm with h1 | h1
        · rcases List.mem_append.mp h1 with h2 | h2
          · exact absurd h2 (by decide)
          · exact absurd h2 (by decide)
        · exact htagnl h1
      rcases List.mem_cons.mp h with rfl | h
      · exact wfLine_endsWith [] [] (by decide) (by decide)
      · exact absurd h (List.not_mem_nil ln)
    rw [gen_text_eq_flatten, splitLines_flatten_nil _ hwfAll]
    unfold grep_old_markdown_summary gen_lines
    rw [List.foldl_append, List.foldl_append, List.foldl_append,
      List.foldl_append]
    have hA : List.foldl grepStep (none, [])
        ["\n".data,
         "## `".data ++ (splitOnChar '/' tagName.data).getLastD [] ++
           "` `".data ++ release_date.data ++ "`\n".data,
         "\n".data,
         markS ++ " ".data ++ tagName.data ++
           "; Don't modify/delete this comment.-->\n".data,
         "\n".data] =
        (some tagName.data, [(tagName.data, ['\n'])]) := by
      simp only [List.foldl_cons, List.foldl_nil]
      rw [grepStep_skip [] "\n".data rfl rfl,
        grepStep_skip []
          ("## `".data ++ (splitOnChar '/' tagName.data).getLastD [] ++
            "` `".data ++ release_date.data ++ "`\n".data) rfl rfl,
        grepStep_skip [] "\n".data rfl rfl,
        grepStep_start [] tagName.data htag1 htag2 htagsemi,
        grepStep_acc tagName.data (updateEntry [] tagName.data [])
          "\n".data rfl rfl]
      simp [appendEntry, lookupEntry, updateEntry]
    rw [hA, grep_fold_summary tagName.data sLines ['\n']
      (fun ln hl => ⟨hnoS ln hl, hnoE ln hl⟩)]
    have hC : List.foldl grepStep
        (some tagName.data, [(tagName.data, ['\n'] ++ sLines.flatten)])
        [markE ++ " ".data ++ tagName.data ++
           "; Don't modify/delete this comment.-->\n".data,
         "\n".data,
         "| ".data ++ pyJoin " | ".data (headers.map String.data) ++ " |\n".data,
         "|".data ++ pyJoin "|".data (headers.map mdSepCell) ++ "|\n".data] =
        (none, [(tagName.data, ['\n'] ++ sLines.flatten)]) := by
      simp only [List.foldl_cons, List.foldl_nil]
      rw [grepStep_end tagName.data [(tagName.data, ['\n'] ++ sLines.flatten)]
          tagName.data,
        grepStep_skip [(tagName.data, ['\n'] ++ sLines.flatten)] "\n".data
          rfl rfl,
        grepStep_skip [(tagName.data, ['\n'] ++ sLines.flatten)]
          ("| ".data ++ pyJoin " | ".data (headers.map String.data) ++
            " |\n".data) rfl rfl,
        grepStep_skip [(tagName.data, ['\n'] ++ sLines.flatten)]
          ("|".data ++ pyJoin "|".data (headers.map mdSepCell) ++
            "|\n".data) rfl rfl]
    rw [hC, grep_fold_skip _ (rows.map mdRowLine) ?hrows,
      grep_fold_skip _ _ ?htail]
    case hrows =>
      intro ln hln
      obtain ⟨r, hr, rfl⟩ := List.mem_map.mp hln
      exact ⟨rfl, rfl⟩
    case htail =>
      intro ln hln
      rcases List.mem_cons.mp hln with rfl | hln
      · exact ⟨rfl, rfl⟩
      rcases List.mem_cons.mp hln with rfl | hln
      · exact ⟨rfl, rfl⟩
      rcases List.mem_cons.mp hln with rfl | hln
      · exact ⟨rfl, rfl⟩
      rcases List.mem_cons.mp hln with rfl | hln
      · exact ⟨rfl, rfl⟩
      rcases List.mem_cons.mp hln with rfl | hln
      · exact ⟨rfl, rfl⟩
      rcases List.mem_cons.mp hln with rfl | hln
      · exact ⟨rfl, rfl⟩
      rcases List.mem_cons.mp hln with rfl | hln
      · exact ⟨rfl, rfl⟩
      rcases List.mem_cons.mp hln with rfl | hln
      · exact ⟨rfl, rfl⟩
      rcases List.mem_cons.mp hln with rfl | hln
      · exact ⟨rfl, rfl⟩
      · exact absurd hln (List.not_mem_nil ln)
    have hlstrip : pyLStrip ('\n' :: sLines.flatten) = sLines.flatten := by
      unfold pyLStrip
      rw [List.dropWhile_cons_of_pos (by decide), hsum]
    show lookupEntry ([(tagName.data, ['\n'] ++ sLines.flatten)].map
      (fun p => (p.1, pyLStrip p.2))) tagName.data = some sLines.flatten
    rw [List.map_cons, List.map_nil]
    show lookupEntry [(tagName.data, pyLStrip ('\n' :: sLines.flatten))]
      tagName.data = some sLines.flatten
    rw [hlstrip]
    simp [lookupEntry]

theorem c9_summary_roundtrip_witness :
    (∀ ln ∈ [("my summary\n".data : List Char)], WfLine ln) ∧
    lookupEntry (grep_old_markdown_summary (splitLines
        (gen_text_data "2020-01-01" tableHeaders
          ([("my summary\n".data : List Char)]).flatten
          [["a", "b", "c", "d", "e", "f"]]
          "release/comp/1.0.0" "release/comp/0.9.0" "c1" "c3")))
        "release/comp/1.0.0".data =
      some ([("my summary\n".data : List Char)]).flatten := by
  have hwf : ∀ ln ∈ [("my summary\n".data : List Char)], WfLine ln := by
    intro ln hln
    rcases List.mem_singleton.mp hln with rfl
    exact ⟨"my summary".data, rfl, by decide⟩
  have h := c9_summary_roundtrip "2020-01-01" tableHeaders
    [["a", "b", "c", "d", "e", "f"]] "release/comp/1.0.0"
    "release/comp/0.9.0" "c1" "c3" [("my summary\n".data : List Char)]
    (by decide) hwf (by decide) (by decide) (by decide) (by decide)
    (by decide) (by decide) (by decide) (by decide) (by decide)
    (by decide) (by decide) (by decide) (by decide)
  exact ⟨hwf, h.2⟩

end RNG
